import Mathlib

/-!
# Keypad calculator (`Src/main.c`): embedding and verified properties

The calculator engine of `Src/main.c` is embedded as pure functions on a
`CalcData` record.  The C fields are kept as they are in the source:

* `first`, `second`, `result` are C `int`s, modelled as `Int` with every
  arithmetic result reduced to the signed 32-bit range by `wrapInt`
  (C leaves signed overflow undefined; the model takes the two's-complement
  wrap-around that the add and multiply instructions of the 32-bit target
  produce);
* an operand is "unset" when it is negative (the guards of the source test
  `< 0`; the value stored for "unset" is `-1`);
* `op` is a C `char`, modelled as `Char`; "no operator" is the character `0`;
* the display is a write-only sink: every `process_*` function returns, next to
  the new record, the list of render calls it made (`RenderCall`), and
  `print_expression` / `print_result` give the OLED driver calls of each;
* `print_expression` is embedded as written: its `snprintf` calls store the
  expression text in `buf`, and `oled_WriteString` is handed the local array
  `buff`, which the function never stores into; what `buff` holds is a
  parameter of the embedding;
* `read_keypad` takes the static `debounce_latch` as an argument and hands it
  back; the row-signal source `Check_Row(ROWS[i])` is a parameter (`RowSignals`:
  the answers of the scan and of the re-read), and the calls made to the
  hardware layer are returned in order (`KeypadCall`);
* a table access outside `KEYBOARD_MAP` would be `none`; the character `0`
  is "no symbol".
-/

namespace Calc

/-! ## Constants of the source -/

/-- `#define EQUAL '='`. -/
def EQUAL : Char := '='
/-- `#define OPERATOR 'O'`. -/
def OPERATOR : Char := 'O'
/-- `#define ADD '+'`. -/
def ADD : Char := '+'
/-- `#define SUBTRACT '-'`. -/
def SUBTRACT : Char := '-'
/-- `#define MULTIPLY '*'`. -/
def MULTIPLY : Char := '*'
/-- `#define DIVIDE '/'`. -/
def DIVIDE : Char := '/'
/-- The `char` value `0`, stored in `op` while no operator is chosen. -/
def NO_OP : Char := Char.ofNat 0

/-- Largest value of a 32-bit C `int`. -/
def INT_MAX : Int := 2147483647
/-- Smallest value of a 32-bit C `int`. -/
def INT_MIN : Int := -2147483648

/-- Reduction of a mathematical integer to the signed 32-bit range
(two's-complement wrap-around of `int` arithmetic). -/
def wrapInt (x : Int) : Int := (x + 2147483648) % 4294967296 - 2147483648

/-- A value that a 32-bit C `int` can hold. -/
def InIntRange (x : Int) : Prop := INT_MIN ≤ x ∧ x ≤ INT_MAX

instance (x : Int) : Decidable (InIntRange x) := by
  unfold InIntRange; infer_instance

/-! ## Data model -/

/-- `enum CalcState`. -/
inductive CalcState where
  | READ_FIRST
  | READ_SECOND
  | SHOWING_RESULT
  deriving DecidableEq, Repr

/-- `struct CalcData`. -/
structure CalcData where
  first : Int
  second : Int
  result : Int
  op : Char
  state : CalcState
  deriving DecidableEq, Repr

/-- The record `main` starts with. -/
def fresh : CalcData :=
  { first := -1, second := -1, result := 0, op := NO_OP, state := CalcState.READ_FIRST }

/-! ## Display sink -/

/-- Calls into the OLED driver, in the order they are made. -/
inductive OledCall where
  | oled_Fill_Black
  | oled_UpdateScreen
  | oled_SetCursor (x y : Nat)
  | oled_WriteString (text : String)
  deriving DecidableEq, Repr

/-- Text that `snprintf(buf, sizeof(buf), ...)` of `print_expression` stores in
`buf`, by the three-way choice of the format.  The longest text, two
11-character numbers, a character and two blanks, is shorter than 32
characters. -/
def expression_text (a : Int) (op : Char) (b : Int) : String :=
  if op = NO_OP then toString a
  else if b = -1 then toString a ++ " " ++ String.singleton op
  else toString a ++ " " ++ String.singleton op ++ " " ++ toString b

/-- `print_expression(a, op, b)`, as written in the source.  For a negative
`a` it returns at once.  Otherwise it clears and flushes the screen, stores
the expression text in `buf` with `snprintf`, sets the cursor to the top line,
hands the local array `buff` to `oled_WriteString`, and flushes.

The function declares `char buff[32]` and never stores into it; `buf` is not
declared in `main.c` and is another object.  So `buff`, the text the array
holds when `oled_WriteString` reads it, is a parameter.  The result is the
text stored in `buf` (`none` when no `snprintf` is executed) and the calls
into the OLED driver. -/
def print_expression (buff : String) (a : Int) (op : Char) (b : Int) :
    Option String × List OledCall :=
  if a < 0 then (none, [])
  else
    (some (expression_text a op b),
     [OledCall.oled_Fill_Black, OledCall.oled_UpdateScreen,
      OledCall.oled_SetCursor 0 0,
      OledCall.oled_WriteString buff,
      OledCall.oled_UpdateScreen])

/-- `print_result(value)`: format `= value` into its local `buf`, write that
`buf` on the second line and flush. -/
def print_result (value : Int) : List OledCall :=
  [OledCall.oled_SetCursor 0 12,
   OledCall.oled_WriteString ("= " ++ toString value),
   OledCall.oled_UpdateScreen]

/-- A call of one of the two render functions, with its arguments. -/
inductive RenderCall where
  | expression (a : Int) (op : Char) (b : Int)
  | result (value : Int)
  deriving DecidableEq, Repr

/-- The OLED driver calls made by one render call; `buff` is what the local
array of `print_expression` holds during the call. -/
def RenderCall.oled (buff : String) : RenderCall → List OledCall
  | RenderCall.expression a op b => (print_expression buff a op b).2
  | RenderCall.result value => print_result value

/-- The OLED driver calls made by a sequence of render calls; `buff n` is what
the local array of `print_expression` holds during the `n`-th call of the
sequence. -/
def oledTrace (buff : Nat → String) : List RenderCall → List OledCall
  | [] => []
  | r :: rs => r.oled (buff 0) ++ oledTrace (fun n => buff (n + 1)) rs

/-! ## Engine -/

/-- `add_digit(base, digit)`. -/
def add_digit (base : Int) (digit : Char) : Int :=
  if digit.toNat < '0'.toNat ∨ digit.toNat > '9'.toNat then base
  else
    let base := if base < 0 then 0 else base
    wrapInt (wrapInt (base * 10) + ((digit.toNat : Int) - ('0'.toNat : Int)))

/-- `next_operator(op)`. -/
def next_operator (op : Char) : Char :=
  if op = ADD then SUBTRACT
  else if op = SUBTRACT then MULTIPLY
  else if op = MULTIPLY then DIVIDE
  else ADD

/-- `process_digit_key(calc, key)`: the new record and the render calls made. -/
def process_digit_key (c : CalcData) (key : Char) : CalcData × List RenderCall :=
  let c :=
    if c.state = CalcState.SHOWING_RESULT then
      { c with first := -1, second := -1, op := NO_OP, state := CalcState.READ_FIRST }
    else c
  let c :=
    if c.state = CalcState.READ_FIRST then
      { c with first := add_digit c.first key }
    else
      { c with second := add_digit c.second key }
  (c, [RenderCall.expression c.first c.op c.second])

/-- `process_operator_key(calc)`: the new record and the render calls made. -/
def process_operator_key (c : CalcData) : CalcData × List RenderCall :=
  if c.first < 0 then (c, [])
  else
    let c := { c with op := next_operator c.op, state := CalcState.READ_SECOND }
    (c, [RenderCall.expression c.first c.op c.second])

/-- The `switch (calc->op)` of `process_equal_key`: the value stored in
`result`, or `none` on the two `return` branches (division by zero, and
`default`). -/
def evaluate (c : CalcData) : Option Int :=
  if c.op = ADD then some (wrapInt (c.first + c.second))
  else if c.op = SUBTRACT then some (wrapInt (c.first - c.second))
  else if c.op = MULTIPLY then some (wrapInt (c.first * c.second))
  else if c.op = DIVIDE then
    if c.second = 0 then none
    else some (wrapInt (Int.tdiv c.first c.second))
  else none

/-- `process_equal_key(calc)`: the new record and the render calls made. -/
def process_equal_key (c : CalcData) : CalcData × List RenderCall :=
  if c.first < 0 ∨ c.op = NO_OP ∨ c.second < 0 then (c, [])
  else
    match evaluate c with
    | none => (c, [])
    | some r =>
      let c := { c with result := r }
      let renders :=
        [RenderCall.expression c.first c.op c.second, RenderCall.result c.result]
      ({ c with first := c.result, second := -1, op := NO_OP,
                   state := CalcState.SHOWING_RESULT }, renders)

/-- The body of the `for (;;)` loop of `main` once `read_keypad` has returned
`key`: nothing for `0`, digits to `process_digit_key`, `OPERATOR` and `EQUAL`
to their handlers, every other character dropped. -/
def dispatch (c : CalcData) (key : Char) : CalcData × List RenderCall :=
  if key = NO_OP then (c, [])
  else if '0'.toNat ≤ key.toNat ∧ key.toNat ≤ '9'.toNat then process_digit_key c key
  else if key = OPERATOR then process_operator_key c
  else if key = EQUAL then process_equal_key c
  else (c, [])

/-- The loop of `main` over a stream of keys delivered by `read_keypad`,
collecting the render calls in order. -/
def run (c : CalcData) : List Char → CalcData × List RenderCall
  | [] => (c, [])
  | key :: keys =>
    let step := dispatch c key
    let rest := run step.1 keys
    (rest.1, step.2 ++ rest.2)

/-- Successive digit keys handed to `process_digit_key`. -/
def process_digits (c : CalcData) : List Char → CalcData
  | [] => c
  | d :: ds => process_digits (process_digit_key c d).1 ds

/-- Appending one decimal digit character to a number. -/
def appendDigit (acc : Int) (d : Char) : Int := acc * 10 + ((d.toNat : Int) - 48)

/-- The decimal number written by a sequence of digit characters. -/
def decimalValue (ds : List Char) : Int := ds.foldl appendDigit 0

/-- A character `'0'..'9'`. -/
def IsDigit (d : Char) : Prop := '0'.toNat ≤ d.toNat ∧ d.toNat ≤ '9'.toNat

instance (d : Char) : Decidable (IsDigit d) := by
  unfold IsDigit; infer_instance

/-- One of the four arithmetic operator characters. -/
def IsOperator (op : Char) : Prop :=
  op = ADD ∨ op = SUBTRACT ∨ op = MULTIPLY ∨ op = DIVIDE

instance (op : Char) : Decidable (IsOperator op) := by
  unfold IsOperator; infer_instance


/-! ## Reachable records -/

/-- The records the engine can be in: the record `main` starts with, and
every record one of the three handlers produces from such a record (digit
keys are the characters `'0'..'9'`, as in the dispatch of `main`). -/
inductive Reachable : CalcData → Prop where
  | start : Reachable fresh
  | digit (c : CalcData) (d : Char) :
      Reachable c → IsDigit d → Reachable (process_digit_key c d).1
  | operator (c : CalcData) : Reachable c → Reachable (process_operator_key c).1
  | equal (c : CalcData) : Reachable c → Reachable (process_equal_key c).1

/-- Shape of a record: every `int` field holds an `int` value, and the fields
agree with `state` — in `READ_FIRST` no operator and `second` is `-1`; in
`READ_SECOND` `first` is set and `op` is one of the four operators; in
`SHOWING_RESULT` no operator, `second` is `-1` and `first` is `result`. -/
def Shape (c : CalcData) : Prop :=
  InIntRange c.first ∧ InIntRange c.second ∧ InIntRange c.result
  ∧ (c.state = CalcState.READ_FIRST → c.op = NO_OP ∧ c.second = -1)
  ∧ (c.state = CalcState.READ_SECOND → 0 ≤ c.first ∧ IsOperator c.op)
  ∧ (c.state = CalcState.SHOWING_RESULT → c.op = NO_OP ∧ c.second = -1 ∧ c.first = c.result)

/-- A key of the keypad that reaches a handler: a digit, `OPERATOR` or `EQUAL`. -/
def IsKey (k : Char) : Prop := IsDigit k ∨ k = OPERATOR ∨ k = EQUAL

instance (k : Char) : Decidable (IsKey k) := by
  unfold IsKey; infer_instance

/-- The operands `(first, second)` of the statement
`calc->result = calc->first / calc->second` when `process_equal_key(calc)`
executes it, `none` when control does not reach it: the guard returns, the
`switch` takes another case, or the `DIVIDE` case returns on `second == 0`. -/
def division_operands (c : CalcData) : Option (Int × Int) :=
  if c.first < 0 ∨ c.op = NO_OP ∨ c.second < 0 then none
  else if c.op = ADD then none
  else if c.op = SUBTRACT then none
  else if c.op = MULTIPLY then none
  else if c.op = DIVIDE then
    if c.second = 0 then none else some (c.first, c.second)
  else none

/-- The `default: return` of the `switch` in `process_equal_key(calc)` is
taken: the guard has passed and `op` is none of the four `case` labels. -/
def default_taken (c : CalcData) : Prop :=
  ¬ (c.first < 0 ∨ c.op = NO_OP ∨ c.second < 0)
  ∧ c.op ≠ ADD ∧ c.op ≠ SUBTRACT ∧ c.op ≠ MULTIPLY ∧ c.op ≠ DIVIDE

/-- The call `process_equal_key(calc)` passes its guard and its `switch`
stores a value in `result` (a successful equals). -/
def equal_accepted (c : CalcData) : Prop :=
  ¬ (c.first < 0 ∨ c.op = NO_OP ∨ c.second < 0) ∧ (evaluate c).isSome = true

instance (c : CalcData) : Decidable (equal_accepted c) := by
  unfold equal_accepted; infer_instance

/-- Lines written on the display: the texts of the `oled_WriteString` calls. -/
def written_lines : List OledCall → List String
  | [] => []
  | OledCall.oled_WriteString text :: rest => text :: written_lines rest
  | _ :: rest => written_lines rest

/-! ## Keypad scanner -/

/-- The fixed symbol table `KEYBOARD_MAP[4][3]`. -/
def KEYBOARD_MAP : List (List Char) :=
  [ [OPERATOR, '0', EQUAL],
    ['7', '8', '9'],
    ['4', '5', '6'],
    ['1', '2', '3'] ]

/-- The table access `KEYBOARD_MAP[row][column]`; `none` stands for an index
outside the 4x3 table. -/
def keyboard_map_at (row column : Nat) : Option Char :=
  match KEYBOARD_MAP[row]? with
  | none => none
  | some keys => keys[column]?

/-- `resolve_column(raw_value, row)`; `none` stands for a table access outside
`KEYBOARD_MAP`, the character `0` is "no symbol". -/
def resolve_column (raw_value row : Nat) : Option Char :=
  if raw_value = 0x04 then keyboard_map_at row 0
  else if raw_value = 0x02 then keyboard_map_at row 1
  else if raw_value = 0x01 then keyboard_map_at row 2
  else some NO_OP

/-- What the row-signal source answers during one call of `read_keypad`:
`first i` is the value of `Check_Row(ROWS[i])` in the scan loop, `again i` the
value of `Check_Row(ROWS[i])` at the re-read after the settle delay.  The
values are `uint8_t` bit masks. -/
structure RowSignals where
  first : Nat → Nat
  again : Nat → Nat

/-- Calls `read_keypad` makes to the hardware layer, in order; `Check_Row i`
is the call `Check_Row(ROWS[i])`. -/
inductive KeypadCall where
  | Check_Row (i : Nat)
  | HAL_Delay (ms : Nat)
  deriving DecidableEq, Repr

/-- The `for (uint8_t i = 0; i < 4; i++)` loop of `read_keypad`, with `n`
iterations left at index `i`: the values of `detected` and `row` after the
loop, and the `Check_Row` calls made. -/
def scan_rows (signal : Nat → Nat) (detected row : Nat) :
    Nat → Nat → Nat × Nat × List KeypadCall
  | 0, _ => (detected, row, [])
  | n + 1, i =>
    if signal i ≠ 0 then (signal i, i, [KeypadCall.Check_Row i])
    else
      let rest := scan_rows signal (signal i) row n (i + 1)
      (rest.1, rest.2.1, KeypadCall.Check_Row i :: rest.2.2)

/-- What one call of `read_keypad` returns and leaves behind. -/
structure KeypadResult where
  key : Option Char
  debounce_latch : Nat
  calls : List KeypadCall
  deriving DecidableEq, Repr

/-- `read_keypad()`, with the static `debounce_latch` passed in and handed
back, and the answers of the row-signal source for this call as `s`. -/
def read_keypad (debounce_latch : Nat) (s : RowSignals) : KeypadResult :=
  let scan := scan_rows s.first 0 0xFF 4 0
  let detected := scan.1
  let row := scan.2.1
  if detected = 0 then ⟨some NO_OP, 0, scan.2.2⟩
  else if debounce_latch ≠ 0 then ⟨some NO_OP, debounce_latch, scan.2.2⟩
  else
    let calls := scan.2.2 ++ [KeypadCall.HAL_Delay 15, KeypadCall.Check_Row row]
    if s.again row ≠ detected then ⟨some NO_OP, debounce_latch, calls⟩
    else ⟨resolve_column detected row, 1, calls⟩

/-- Consecutive calls of `read_keypad`, one per element of the list: the
values returned, in order, and the latch after the last call. -/
def read_keypad_seq (debounce_latch : Nat) : List RowSignals → List (Option Char) × Nat
  | [] => ([], debounce_latch)
  | s :: rest =>
    let r := read_keypad debounce_latch s
    let tail := read_keypad_seq r.debounce_latch rest
    (r.key :: tail.1, tail.2)

/-- The scan loop of `read_keypad` finds row index `row` active with signal
`sig`: every row before it reads `0` and row `row` reads `sig`. -/
def ScanFinds (row sig : Nat) (s : RowSignals) : Prop :=
  (∀ i, i < row → s.first i = 0) ∧ s.first row = sig

/-- The key at row index `row` with signal `sig` is held through a whole call
of `read_keypad`: the scan finds it and the re-read gives the same signal. -/
def HeldKey (row sig : Nat) (s : RowSignals) : Prop :=
  ScanFinds row sig s ∧ s.again row = sig


/-- Row signals with a single active row: row index `row` reads `sig` in the
scan and `again` at the re-read, every other row reads `0`. -/
def one_row (row sig again : Nat) : RowSignals :=
  ⟨fun i => if i = row then sig else 0, fun i => if i = row then again else 0⟩

/-- Row signals with no key pressed. -/
def idle_rows : RowSignals := ⟨fun _ => 0, fun _ => 0⟩


/-- A record on which equals is accepted: both operands set, one of the four
operators chosen, and not a division by zero. -/
def Ready (c : CalcData) : Prop :=
  0 ≤ c.first ∧ 0 ≤ c.second ∧ IsOperator c.op ∧ ¬ (c.op = DIVIDE ∧ c.second = 0)

/-- Keys that complete the expression of a record, so that the next equals is
accepted: a first operand `1` where none is usable, an operator press where
none is chosen, a second operand `1` where none is usable. -/
def recovery_keys (c : CalcData) : List Char :=
  match c.state with
  | CalcState.READ_FIRST => if c.first < 0 then ['1', OPERATOR, '1'] else [OPERATOR, '1']
  | CalcState.READ_SECOND =>
    if c.second < 0 ∨ (c.op = DIVIDE ∧ c.second = 0) then ['1'] else []
  | CalcState.SHOWING_RESULT => ['1', OPERATOR, '1']


/-! ## Arithmetic helpers -/

lemma wrapInt_eq_self {x : Int} (hlo : INT_MIN ≤ x) (hhi : x ≤ INT_MAX) : wrapInt x = x := by
  unfold wrapInt
  unfold INT_MIN at hlo
  unfold INT_MAX at hhi
  omega

lemma wrapInt_inRange (x : Int) : InIntRange (wrapInt x) := by
  unfold InIntRange wrapInt INT_MIN INT_MAX
  omega

lemma operator_ne_no_op {op : Char} (h : IsOperator op) : op ≠ NO_OP := by
  rcases h with h | h | h | h <;> rw [h] <;> decide

/-- What `process_equal_key` does once its guard has passed and the `switch`
has stored a value. -/
lemma process_equal_key_accept (c : CalcData) (r : Int)
    (h1 : 0 ≤ c.first) (hop : c.op ≠ NO_OP) (h2 : 0 ≤ c.second) (he : evaluate c = some r) :
    process_equal_key c
      = (⟨r, -1, r, NO_OP, CalcState.SHOWING_RESULT⟩,
         [RenderCall.expression c.first c.op c.second, RenderCall.result r]) := by
  unfold process_equal_key
  have hg : ¬ (c.first < 0 ∨ c.op = NO_OP ∨ c.second < 0) := by
    rintro (h | h | h)
    · omega
    · exact hop h
    · omega
  rw [if_neg hg, he]

/-! ## Digit accumulation helpers -/

lemma add_digit_of_nonneg {base : Int} {d : Char} (hd : IsDigit d) (hb : 0 ≤ base)
    (hfit : appendDigit base d ≤ INT_MAX) : add_digit base d = appendDigit base d := by
  unfold IsDigit at hd
  have h0 : '0'.toNat = 48 := by decide
  have h9 : '9'.toNat = 57 := by decide
  rw [h0, h9] at hd
  unfold appendDigit at hfit ⊢
  unfold add_digit
  rw [h0, h9, if_neg (by omega), if_neg (by omega)]
  have hin : wrapInt (base * 10) = base * 10 :=
    wrapInt_eq_self (by unfold INT_MIN; omega) (by unfold INT_MAX at *; omega)
  show wrapInt (wrapInt (base * 10) + ((d.toNat : Int) - ((48 : Nat) : Int))) = _
  rw [hin]
  exact wrapInt_eq_self (by unfold INT_MIN; push_cast; omega) (by push_cast; exact hfit)

lemma add_digit_of_neg {base : Int} {d : Char} (hd : IsDigit d) (hb : base < 0) :
    add_digit base d = appendDigit 0 d := by
  unfold IsDigit at hd
  have h0 : '0'.toNat = 48 := by decide
  have h9 : '9'.toNat = 57 := by decide
  rw [h0, h9] at hd
  unfold appendDigit
  unfold add_digit
  rw [h0, h9, if_neg (by omega), if_pos hb]
  show wrapInt (wrapInt (0 * 10) + ((d.toNat : Int) - ((48 : Nat) : Int))) = _
  have hz : wrapInt (0 * 10) = 0 := by decide
  rw [hz]
  exact wrapInt_eq_self (by unfold INT_MIN; push_cast; omega)
    (by unfold INT_MAX; push_cast; omega)

lemma appendDigit_ge {acc : Int} {d : Char} (hd : IsDigit d) (ha : 0 ≤ acc) :
    acc ≤ appendDigit acc d := by
  unfold IsDigit at hd
  have h0 : '0'.toNat = 48 := by decide
  rw [h0] at hd
  unfold appendDigit
  omega

lemma foldl_appendDigit_ge (ds : List Char) (hds : ∀ d ∈ ds, IsDigit d) :
    ∀ acc : Int, 0 ≤ acc → acc ≤ ds.foldl appendDigit acc := by
  induction ds with
  | nil => intro acc _; exact le_refl _
  | cons d ds ih =>
    intro acc ha
    have hd : IsDigit d := hds d (List.mem_cons_self d ds)
    have hstep := appendDigit_ge hd ha
    have hrest := ih (fun x hx => hds x (List.mem_cons_of_mem d hx)) (appendDigit acc d)
      (le_trans ha hstep)
    exact le_trans hstep hrest

/-- Without overflow, folding `add_digit` from a set operand is decimal
concatenation. -/
lemma foldl_add_digit_nonneg (ds : List Char) (hds : ∀ d ∈ ds, IsDigit d) :
    ∀ base : Int, 0 ≤ base → ds.foldl appendDigit base ≤ INT_MAX →
      ds.foldl add_digit base = ds.foldl appendDigit base := by
  induction ds with
  | nil => intro base _ _; rfl
  | cons d ds ih =>
    intro base hb hfit
    have hd : IsDigit d := hds d (List.mem_cons_self d ds)
    have hds' : ∀ x ∈ ds, IsDigit x := fun x hx => hds x (List.mem_cons_of_mem d hx)
    have hnn : 0 ≤ appendDigit base d := le_trans hb (appendDigit_ge hd hb)
    have hstep : appendDigit base d ≤ INT_MAX :=
      le_trans (foldl_appendDigit_ge ds hds' _ hnn) hfit
    simp only [List.foldl_cons]
    rw [add_digit_of_nonneg hd hb hstep]
    exact ih hds' _ hnn hfit

/-- Without overflow, folding `add_digit` over a non-empty digit sequence from
an unset operand gives the decimal value of the sequence. -/
lemma foldl_add_digit_unset (ds : List Char) (hne : ds ≠ []) (hds : ∀ d ∈ ds, IsDigit d)
    (base : Int) (hb : base < 0) (hfit : decimalValue ds ≤ INT_MAX) :
    ds.foldl add_digit base = decimalValue ds := by
  cases ds with
  | nil => exact absurd rfl hne
  | cons d ds =>
    have hd : IsDigit d := hds d (List.mem_cons_self d ds)
    have hds' : ∀ x ∈ ds, IsDigit x := fun x hx => hds x (List.mem_cons_of_mem d hx)
    have hnn : 0 ≤ appendDigit 0 d := appendDigit_ge hd (le_refl 0)
    unfold decimalValue at hfit ⊢
    simp only [List.foldl_cons] at hfit ⊢
    rw [add_digit_of_neg hd hb]
    exact foldl_add_digit_nonneg ds hds' _ hnn hfit

lemma process_digits_read_first (ds : List Char) :
    ∀ c : CalcData, c.state = CalcState.READ_FIRST →
      process_digits c ds = { c with first := ds.foldl add_digit c.first } := by
  induction ds with
  | nil => intro c _; rfl
  | cons d ds ih =>
    intro c hc
    have hstep : (process_digit_key c d).1 = { c with first := add_digit c.first d } := by
      unfold process_digit_key
      simp [hc]
    simp only [process_digits, List.foldl_cons]
    rw [hstep]
    exact ih _ hc

lemma process_digits_read_second (ds : List Char) :
    ∀ c : CalcData, c.state = CalcState.READ_SECOND →
      process_digits c ds = { c with second := ds.foldl add_digit c.second } := by
  induction ds with
  | nil => intro c _; rfl
  | cons d ds ih =>
    intro c hc
    have hstep : (process_digit_key c d).1 = { c with second := add_digit c.second d } := by
      unfold process_digit_key
      simp [hc]
    simp only [process_digits, List.foldl_cons]
    rw [hstep]
    exact ih _ hc

lemma evaluate_some (c : CalcData) (hop : IsOperator c.op)
    (hdiv : ¬ (c.op = DIVIDE ∧ c.second = 0)) : ∃ r, evaluate c = some r := by
  unfold evaluate
  rcases hop with h | h | h | h
  · exact ⟨_, by rw [if_pos h]⟩
  · exact ⟨_, by rw [h, if_neg (by decide), if_pos rfl]⟩
  · exact ⟨_, by rw [h, if_neg (by decide), if_neg (by decide), if_pos rfl]⟩
  · have hz : c.second ≠ 0 := fun hz => hdiv ⟨h, hz⟩
    exact ⟨_, by
      rw [h, if_neg (by decide), if_neg (by decide), if_neg (by decide), if_pos rfl, if_neg hz]⟩

lemma add_digit_unset_single {d : Char} (hd : IsDigit d) :
    add_digit (-1) d = (d.toNat : Int) - 48 := by
  rw [add_digit_of_neg hd (by decide)]
  unfold appendDigit
  omega

/-! ## Key-stream helpers -/

lemma run_fst_append (ks ks' : List Char) :
    ∀ c : CalcData, (run c (ks ++ ks')).1 = (run (run c ks).1 ks').1 := by
  induction ks with
  | nil => intro c; rfl
  | cons k ks ih =>
    intro c
    simp only [List.cons_append, run]
    exact ih _

lemma dispatch_digit (c : CalcData) {d : Char} (hd : IsDigit d) :
    dispatch c d = process_digit_key c d := by
  have hne : d ≠ NO_OP := by
    intro h
    rw [h] at hd
    exact absurd hd (by decide)
  have hd' : '0'.toNat ≤ d.toNat ∧ d.toNat ≤ '9'.toNat := hd
  unfold dispatch
  rw [if_neg hne, if_pos hd']

lemma run_fst_digits (ds : List Char) (hds : ∀ d ∈ ds, IsDigit d) :
    ∀ c : CalcData, (run c ds).1 = process_digits c ds := by
  induction ds with
  | nil => intro c; rfl
  | cons d ds ih =>
    intro c
    have hd : IsDigit d := hds d (List.mem_cons_self d ds)
    simp only [run, process_digits]
    rw [dispatch_digit c hd]
    exact ih (fun x hx => hds x (List.mem_cons_of_mem d hx)) _

lemma run_fst_operator (c : CalcData) (ks : List Char) :
    (run c (OPERATOR :: ks)).1 = (run (process_operator_key c).1 ks).1 := by
  have h : dispatch c OPERATOR = process_operator_key c := by
    unfold dispatch
    rw [if_neg (by decide), if_neg (by decide), if_pos rfl]
  simp only [run]
  rw [h]

lemma run_fst_equal (c : CalcData) :
    (run c [EQUAL]).1 = (process_equal_key c).1 := by
  have h : dispatch c EQUAL = process_equal_key c := by
    unfold dispatch
    rw [if_neg (by decide), if_neg (by decide), if_neg (by decide), if_pos rfl]
  simp only [run]
  rw [h]

lemma decimalValue_nonneg (ds : List Char) (hds : ∀ d ∈ ds, IsDigit d) :
    0 ≤ decimalValue ds :=
  foldl_appendDigit_ge ds hds 0 (le_refl 0)

/-- A non-empty digit sequence read into `first` of the fresh engine. -/
lemma process_digits_fresh_eq (ds : List Char) (hne : ds ≠ [])
    (hds : ∀ d ∈ ds, IsDigit d) (hfit : decimalValue ds ≤ INT_MAX) :
    process_digits fresh ds
      = ⟨decimalValue ds, -1, 0, NO_OP, CalcState.READ_FIRST⟩ := by
  rw [process_digits_read_first ds fresh rfl,
    foldl_add_digit_unset ds hne hds fresh.first (by decide) hfit]
  rfl

/-- A non-empty digit sequence read into an unset `second`. -/
lemma process_digits_second_eq (ds : List Char) (hne : ds ≠ [])
    (hds : ∀ d ∈ ds, IsDigit d) (hfit : decimalValue ds ≤ INT_MAX)
    (a r : Int) (op : Char) :
    process_digits ⟨a, -1, r, op, CalcState.READ_SECOND⟩ ds
      = ⟨a, decimalValue ds, r, op, CalcState.READ_SECOND⟩ := by
  rw [process_digits_read_second ds _ rfl,
    foldl_add_digit_unset ds hne hds (-1) (by decide) hfit]

/-- The record after the keys `A`, `n` operator presses given as `ops`, `B`,
equals, in terms of the handlers. -/
lemma run_expression (A B : List Char) (hA : ∀ d ∈ A, IsDigit d) (hB : ∀ d ∈ B, IsDigit d)
    (c : CalcData) :
    (run c (A ++ [OPERATOR] ++ B ++ [EQUAL])).1
      = (process_equal_key
          (process_digits (process_operator_key (process_digits c A)).1 B)).1 := by
  rw [run_fst_append, run_fst_append, run_fst_append, run_fst_digits A hA,
    run_fst_operator, run_fst_digits B hB, run_fst_equal]
  rfl

lemma run_expression_two (A B : List Char) (hA : ∀ d ∈ A, IsDigit d)
    (hB : ∀ d ∈ B, IsDigit d) (c : CalcData) :
    (run c (A ++ [OPERATOR, OPERATOR] ++ B ++ [EQUAL])).1
      = (process_equal_key
          (process_digits
            (process_operator_key (process_operator_key (process_digits c A)).1).1 B)).1 := by
  rw [run_fst_append, run_fst_append, run_fst_append, run_fst_digits A hA,
    run_fst_operator, run_fst_operator, run_fst_digits B hB, run_fst_equal]
  rfl

/-! ## Invariant of the reachable records -/

lemma add_digit_inRange (base : Int) (d : Char) (h : InIntRange base) :
    InIntRange (add_digit base d) := by
  unfold add_digit
  split
  · exact h
  · exact wrapInt_inRange _

lemma evaluate_inRange {c : CalcData} {r : Int} (h : evaluate c = some r) : InIntRange r := by
  unfold evaluate at h
  split_ifs at h <;> (injection h with h; rw [← h]; exact wrapInt_inRange _)

lemma next_operator_isOperator (op : Char) : IsOperator (next_operator op) := by
  unfold next_operator IsOperator
  split_ifs <;> simp

lemma neg_one_inRange : InIntRange (-1) := by decide

lemma shape_fresh : Shape fresh := by
  unfold Shape fresh
  refine ⟨by decide, by decide, by decide, fun _ => ⟨rfl, rfl⟩, ?_, ?_⟩
  · intro h; exact absurd h (by decide)
  · intro h; exact absurd h (by decide)

lemma shape_digit (c : CalcData) (d : Char) (h : Shape c) :
    Shape (process_digit_key c d).1 := by
  obtain ⟨f, s, r, op, st⟩ := c
  obtain ⟨hf, hs, hr, h1, h2, h3⟩ := h
  cases st
  · obtain ⟨ho, hs1⟩ := h1 rfl
    simp only at ho hs1
    refine ⟨add_digit_inRange _ _ hf, hs, hr, fun _ => ⟨ho, hs1⟩, ?_, ?_⟩
    · intro h; exact absurd h (by simp [process_digit_key])
    · intro h; exact absurd h (by simp [process_digit_key])
  · obtain ⟨hf0, hop⟩ := h2 rfl
    refine ⟨hf, add_digit_inRange _ _ hs, hr, ?_, fun _ => ⟨hf0, hop⟩, ?_⟩
    · intro h; exact absurd h (by simp [process_digit_key])
    · intro h; exact absurd h (by simp [process_digit_key])
  · refine ⟨add_digit_inRange _ _ neg_one_inRange, neg_one_inRange, hr,
      fun _ => ⟨rfl, rfl⟩, ?_, ?_⟩
    · intro h; exact absurd h (by simp [process_digit_key])
    · intro h; exact absurd h (by simp [process_digit_key])

lemma shape_operator (c : CalcData) (h : Shape c) : Shape (process_operator_key c).1 := by
  unfold process_operator_key
  by_cases hneg : c.first < 0
  · rw [if_pos hneg]; exact h
  · rw [if_neg hneg]
    obtain ⟨hf, hs, hr, -, -, -⟩ := h
    refine ⟨hf, hs, hr, ?_, fun _ => ⟨by simp only; omega, next_operator_isOperator _⟩, ?_⟩
    · intro h; exact absurd h (by simp)
    · intro h; exact absurd h (by simp)

lemma shape_equal (c : CalcData) (h : Shape c) : Shape (process_equal_key c).1 := by
  unfold process_equal_key
  by_cases hg : c.first < 0 ∨ c.op = NO_OP ∨ c.second < 0
  · rw [if_pos hg]; exact h
  · rw [if_neg hg]
    cases he : evaluate c with
    | none => exact h
    | some r =>
      have hr := evaluate_inRange he
      refine ⟨hr, neg_one_inRange, hr, ?_, ?_, fun _ => ⟨rfl, rfl, rfl⟩⟩
      · intro h; exact absurd h (by simp)
      · intro h; exact absurd h (by simp)

/-- Every reachable record has the shape `Shape`. -/
lemma reachable_shape {c : CalcData} (h : Reachable c) : Shape c := by
  induction h with
  | start => exact shape_fresh
  | digit c d _ _ ih => exact shape_digit c d ih
  | operator c _ ih => exact shape_operator c ih
  | equal c _ ih => exact shape_equal c ih

lemma dispatch_reachable (c : CalcData) (k : Char) (h : Reachable c) :
    Reachable (dispatch c k).1 := by
  unfold dispatch
  split_ifs with h0 hd ho he
  · exact h
  · exact Reachable.digit c k h hd
  · exact Reachable.operator c h
  · exact Reachable.equal c h
  · exact h

/-- Every record the loop of `main` gets to from a reachable record, whatever
the keys, is reachable. -/
lemma run_reachable (ks : List Char) :
    ∀ c : CalcData, Reachable c → Reachable (run c ks).1 := by
  induction ks with
  | nil => intro c h; exact h
  | cons k ks ih =>
    intro c h
    simp only [run]
    exact ih _ (dispatch_reachable c k h)

/-! ## Keypad scanner helpers -/

/-- The scan loop stops at the first active row: `detected` is its signal and
`row` its index. -/
lemma scan_rows_found (signal : Nat → Nat) (row : Nat)
    (hz : ∀ i, i < row → signal i = 0) (hnz : signal row ≠ 0) :
    ∀ (n i d r : Nat), i ≤ row → row < i + n →
      (scan_rows signal d r n i).1 = signal row ∧ (scan_rows signal d r n i).2.1 = row := by
  intro n
  induction n with
  | zero => intro i d r h1 h2; omega
  | succ n ih =>
    intro i d r h1 h2
    by_cases hi : i = row
    · subst hi
      simp [scan_rows, hnz]
    · have hlt : i < row := by omega
      have h0 : ¬ signal i ≠ 0 := by rw [hz i hlt]; simp
      simp only [scan_rows, if_neg h0]
      exact ih (i + 1) (signal i) r (by omega) (by omega)

lemma scan_rows_of_finds {row sig : Nat} {s : RowSignals} (hrow : row < 4)
    (hfind : ScanFinds row sig s) (hsig : sig ≠ 0) :
    (scan_rows s.first 0 0xFF 4 0).1 = sig ∧ (scan_rows s.first 0 0xFF 4 0).2.1 = row := by
  obtain ⟨hz, hr⟩ := hfind
  have h := scan_rows_found s.first row hz (by rw [hr]; exact hsig) 4 0 0 0xFF
    (Nat.zero_le _) (by omega)
  rw [hr] at h
  exact h

/-- A call of `read_keypad` with the latch set and some row active returns no
symbol and keeps the latch. -/
lemma read_keypad_latched (latch : Nat) (s : RowSignals) (hl : latch ≠ 0)
    (ha : (scan_rows s.first 0 0xFF 4 0).1 ≠ 0) :
    (read_keypad latch s).key = some NO_OP ∧ (read_keypad latch s).debounce_latch = latch := by
  unfold read_keypad
  simp only [if_neg ha, if_pos hl, and_self]

/-- A call of `read_keypad` with the latch clear and a confirmed signal sets
the latch and returns what `resolve_column` gives. -/
lemma read_keypad_confirmed {row sig : Nat} {s : RowSignals} (hrow : row < 4)
    (hheld : HeldKey row sig s) (hsig : sig ≠ 0) :
    (read_keypad 0 s).key = resolve_column sig row ∧ (read_keypad 0 s).debounce_latch = 1 := by
  obtain ⟨hfind, hagain⟩ := hheld
  obtain ⟨hd, hr⟩ := scan_rows_of_finds hrow hfind hsig
  unfold read_keypad
  simp only [hd, hr, if_neg hsig, hagain, ne_eq, not_true_eq_false, if_false, and_self]

/-- A call of `read_keypad` with the latch clear whose re-read differs from
the first read returns no symbol and leaves the latch clear. -/
lemma read_keypad_bounce {row sig : Nat} {s : RowSignals} (hrow : row < 4)
    (hfind : ScanFinds row sig s) (hsig : sig ≠ 0) (hdiff : s.again row ≠ sig) :
    (read_keypad 0 s).key = some NO_OP ∧ (read_keypad 0 s).debounce_latch = 0 := by
  obtain ⟨hd, hr⟩ := scan_rows_of_finds hrow hfind hsig
  unfold read_keypad
  simp only [hd, hr, if_neg hsig, ne_eq, not_true_eq_false, if_false, if_pos hdiff, and_self]

/-- While the latch is set and every call sees an active row, no call returns
a symbol and the latch stays as it is. -/
lemma read_keypad_seq_latched (ts : List RowSignals) :
    ∀ latch : Nat, latch ≠ 0 → (∀ t ∈ ts, (scan_rows t.first 0 0xFF 4 0).1 ≠ 0) →
      read_keypad_seq latch ts = (List.replicate ts.length (some NO_OP), latch) := by
  induction ts with
  | nil => intro latch _ _; rfl
  | cons t ts ih =>
    intro latch hl hall
    obtain ⟨hk, hlatch⟩ := read_keypad_latched latch t hl (hall t (List.mem_cons_self t ts))
    simp only [read_keypad_seq, hk, hlatch, List.length_cons, List.replicate_succ]
    rw [ih latch hl (fun x hx => hall x (List.mem_cons_of_mem t hx))]

/-- A well-formed signal on one of the four rows decodes to a symbol of the
table, which is not the "no symbol" character. -/
lemma resolve_column_symbol {row sig : Nat} (hrow : row < 4)
    (hsig : sig = 0x04 ∨ sig = 0x02 ∨ sig = 0x01) :
    ∃ k, resolve_column sig row = some k ∧ k ≠ NO_OP := by
  interval_cases row <;> rcases hsig with h | h | h <;> subst h <;>
    exact ⟨_, rfl, by decide⟩

lemma one_row_finds (row sig again : Nat) : ScanFinds row sig (one_row row sig again) := by
  refine ⟨fun i hi => ?_, ?_⟩
  · have hne : i ≠ row := by omega
    simp [one_row, hne]
  · simp [one_row]

lemma one_row_held (row sig : Nat) : HeldKey row sig (one_row row sig sig) :=
  ⟨one_row_finds row sig sig, by simp [one_row]⟩

/-! ## Recovery helpers -/

lemma dispatch_operator (c : CalcData) : dispatch c OPERATOR = process_operator_key c := by
  unfold dispatch
  rw [if_neg (by decide), if_neg (by decide), if_pos rfl]

lemma dispatch_equal (c : CalcData) : dispatch c EQUAL = process_equal_key c := by
  unfold dispatch
  rw [if_neg (by decide), if_neg (by decide), if_neg (by decide), if_pos rfl]

lemma add_digit_one_of_neg {base : Int} (hb : base < 0) : add_digit base '1' = 1 := by
  rw [add_digit_of_neg (by decide) hb]
  decide

lemma run_recover_unset (f r : Int) (hf : f < 0) :
    (run ⟨f, -1, r, NO_OP, CalcState.READ_FIRST⟩ ['1', OPERATOR, '1']).1
      = ⟨1, 1, r, ADD, CalcState.READ_SECOND⟩ := by
  have hd : IsDigit '1' := by decide
  simp only [run]
  rw [dispatch_digit _ hd]
  show (dispatch (dispatch ⟨add_digit f '1', -1, r, NO_OP, CalcState.READ_FIRST⟩
    OPERATOR).1 '1').1 = _
  rw [add_digit_one_of_neg hf]
  rfl

lemma run_recover_first (f r : Int) (hf : 0 ≤ f) :
    (run ⟨f, -1, r, NO_OP, CalcState.READ_FIRST⟩ [OPERATOR, '1']).1
      = ⟨f, 1, r, ADD, CalcState.READ_SECOND⟩ := by
  have hn : ¬ f < 0 := by omega
  have ho : (dispatch ⟨f, -1, r, NO_OP, CalcState.READ_FIRST⟩ OPERATOR).1
      = ⟨f, -1, r, ADD, CalcState.READ_SECOND⟩ := by
    rw [dispatch_operator]
    unfold process_operator_key
    rw [if_neg hn]
    rfl
  simp only [run]
  rw [ho]
  rfl

lemma run_recover_second (f s r : Int) (op : Char)
    (hs : s < 0 ∨ (op = DIVIDE ∧ s = 0)) :
    (run ⟨f, s, r, op, CalcState.READ_SECOND⟩ ['1']).1
      = ⟨f, 1, r, op, CalcState.READ_SECOND⟩ := by
  have hd : IsDigit '1' := by decide
  have h1 : add_digit s '1' = 1 := by
    rcases hs with h | ⟨-, h⟩
    · exact add_digit_one_of_neg h
    · rw [h]; decide
  simp only [run]
  rw [dispatch_digit _ hd]
  show (⟨f, add_digit s '1', r, op, CalcState.READ_SECOND⟩ : CalcData) = _
  rw [h1]

lemma run_recover_shown (f s r : Int) (op : Char) :
    (run ⟨f, s, r, op, CalcState.SHOWING_RESULT⟩ ['1', OPERATOR, '1']).1
      = ⟨1, 1, r, ADD, CalcState.READ_SECOND⟩ := by
  have hd : IsDigit '1' := by decide
  simp only [run]
  rw [dispatch_digit _ hd]
  rfl

lemma ready_mk (f s r : Int) (op : Char) (st : CalcState) (hf : 0 ≤ f) (hs : 0 ≤ s)
    (hop : IsOperator op) (hd : ¬ (op = DIVIDE ∧ s = 0)) : Ready ⟨f, s, r, op, st⟩ :=
  ⟨hf, hs, hop, hd⟩

/-- After the recovery keys of a well-shaped record, equals is accepted. -/
lemma recovery_ready (c : CalcData) (h : Shape c) : Ready (run c (recovery_keys c)).1 := by
  obtain ⟨f, s, r, op, st⟩ := c
  obtain ⟨-, -, -, h1, h2, h3⟩ := h
  cases st
  · obtain ⟨ho, hs⟩ := h1 rfl
    simp only at ho hs
    subst ho
    subst hs
    by_cases hf : f < 0
    · have hk : recovery_keys ⟨f, -1, r, NO_OP, CalcState.READ_FIRST⟩
          = ['1', OPERATOR, '1'] := by
        simp only [recovery_keys, if_pos hf]
      rw [hk, run_recover_unset f r hf]
      exact ready_mk 1 1 r ADD _ (by decide) (by decide) (by decide) (by decide)
    · have hk : recovery_keys ⟨f, -1, r, NO_OP, CalcState.READ_FIRST⟩ = [OPERATOR, '1'] := by
        simp only [recovery_keys, if_neg hf]
      rw [hk, run_recover_first f r (by omega)]
      exact ready_mk f 1 r ADD _ (by omega) (by decide) (by decide) (by decide)
  · obtain ⟨hf0, hop⟩ := h2 rfl
    simp only at hf0 hop
    by_cases hs : s < 0 ∨ (op = DIVIDE ∧ s = 0)
    · have hk : recovery_keys ⟨f, s, r, op, CalcState.READ_SECOND⟩ = ['1'] := by
        simp only [recovery_keys, if_pos hs]
      rw [hk, run_recover_second f s r op hs]
      exact ready_mk f 1 r op _ hf0 (by decide) hop (fun h => absurd h.2 (by decide))
    · have hk : recovery_keys ⟨f, s, r, op, CalcState.READ_SECOND⟩ = [] := by
        simp only [recovery_keys, if_neg hs]
      rw [hk]
      refine ⟨hf0, ?_, hop, fun h => hs (Or.inr h)⟩
      show 0 ≤ s
      by_contra hneg
      exact hs (Or.inl (by omega))
  · have hk : recovery_keys ⟨f, s, r, op, CalcState.SHOWING_RESULT⟩
        = ['1', OPERATOR, '1'] := rfl
    rw [hk, run_recover_shown]
    exact ready_mk 1 1 r ADD _ (by decide) (by decide) (by decide) (by decide)

lemma recovery_keys_are_keys (c : CalcData) :
    (recovery_keys c).length ≤ 3 ∧ ∀ k ∈ recovery_keys c, IsKey k := by
  have h3 : ∀ k ∈ ['1', OPERATOR, '1'], IsKey k := by decide
  have h2 : ∀ k ∈ [OPERATOR, '1'], IsKey k := by decide
  have h1 : ∀ k ∈ ['1'], IsKey k := by decide
  unfold recovery_keys
  split
  · split
    · exact ⟨by decide, h3⟩
    · exact ⟨by decide, h2⟩
  · split
    · exact ⟨by decide, h1⟩
    · exact ⟨by decide, fun k hk => absurd hk (List.not_mem_nil k)⟩
  · exact ⟨by decide, h3⟩

/-- On a ready record equals is accepted and leaves a shown result. -/
lemma ready_equal (c : CalcData) (h : Ready c) :
    equal_accepted c
    ∧ ∃ r, process_equal_key c
        = (⟨r, -1, r, NO_OP, CalcState.SHOWING_RESULT⟩,
           [RenderCall.expression c.first c.op c.second, RenderCall.result r]) := by
  obtain ⟨hf, hs, hop, hdiv⟩ := h
  obtain ⟨r, hr⟩ := evaluate_some c hop hdiv
  have hne := operator_ne_no_op hop
  refine ⟨⟨?_, by rw [hr]; rfl⟩, r, process_equal_key_accept c r hf hne hs hr⟩
  rintro (h | h | h)
  · omega
  · exact hne h
  · omega

/-! ## Render helpers -/

/-- The line `print_expression` writes is what `buff` holds, whatever text
its `snprintf` has stored in `buf`. -/
lemma written_expression (buff : Nat → String) (a b : Int) (op : Char) (h : 0 ≤ a) :
    written_lines (oledTrace buff [RenderCall.expression a op b]) = [buff 0] := by
  have hn : ¬ a < 0 := by omega
  simp [oledTrace, RenderCall.oled, print_expression, written_lines, hn]

lemma print_expression_buf (buff : String) (a b : Int) (op : Char) (h : 0 ≤ a) :
    (print_expression buff a op b).1 = some (expression_text a op b) := by
  have hn : ¬ a < 0 := by omega
  simp [print_expression, hn]

lemma oled_expression_neg (buff : Nat → String) (a b : Int) (op : Char) (h : a < 0) :
    oledTrace buff [RenderCall.expression a op b] = [] := by
  simp [oledTrace, RenderCall.oled, print_expression, h]

/-- After `print_expression` and `print_result` the lines written are what
`buff` holds and the result line. -/
lemma written_expression_result (buff : Nat → String) (a b r : Int) (op : Char)
    (h : 0 ≤ a) :
    written_lines (oledTrace buff [RenderCall.expression a op b, RenderCall.result r])
      = [buff 0, "= " ++ toString r] := by
  have hn : ¬ a < 0 := by omega
  simp [oledTrace, RenderCall.oled, print_expression, print_result, written_lines, hn]

/-- What `process_operator_key` does on a record whose `first` is negative,
and on a record whose `first` is not. -/
lemma process_operator_key_cases (c : CalcData) :
    (c.first < 0 → process_operator_key c = (c, []))
    ∧ (0 ≤ c.first →
        process_operator_key c
          = (⟨c.first, c.second, c.result, next_operator c.op, CalcState.READ_SECOND⟩,
             [RenderCall.expression c.first (next_operator c.op) c.second])) := by
  refine ⟨?_, ?_⟩
  · intro h
    unfold process_operator_key
    rw [if_pos h]
  · intro h
    have hn : ¬ c.first < 0 := by omega
    unfold process_operator_key
    rw [if_neg hn]

lemma process_digit_key_first (c : CalcData) (d : Char) (hd : IsDigit d) (h : Shape c) :
    (c.state ≠ CalcState.READ_FIRST → 0 ≤ (process_digit_key c d).1.first)
    ∧ (c.state = CalcState.READ_FIRST →
        (process_digit_key c d).1.first = add_digit c.first d) := by
  obtain ⟨f, s, r, op, st⟩ := c
  obtain ⟨-, -, -, -, h2, -⟩ := h
  cases st
  · exact ⟨fun hne => absurd rfl hne, fun _ => rfl⟩
  · exact ⟨fun _ => (h2 rfl).1, fun he => absurd he (by simp)⟩
  · refine ⟨fun _ => ?_, fun he => absurd he (by simp)⟩
    show 0 ≤ add_digit (-1) d
    rw [add_digit_unset_single hd]
    have h0 : '0'.toNat = 48 := by decide
    have hd0 := hd.1
    rw [h0] at hd0
    omega

lemma process_equal_key_rejected (c : CalcData) (h : ¬ equal_accepted c) :
    process_equal_key c = (c, []) := by
  unfold process_equal_key
  by_cases hg : c.first < 0 ∨ c.op = NO_OP ∨ c.second < 0
  · rw [if_pos hg]
  · rw [if_neg hg]
    cases he : evaluate c with
    | none => rfl
    | some r => exact absurd ⟨hg, by rw [he]; rfl⟩ h

lemma process_equal_key_accepted (c : CalcData) (h : equal_accepted c) :
    0 ≤ c.first ∧ ∃ r, evaluate c = some r
      ∧ process_equal_key c
        = (⟨r, -1, r, NO_OP, CalcState.SHOWING_RESULT⟩,
           [RenderCall.expression c.first c.op c.second, RenderCall.result r]) := by
  obtain ⟨hg, hsome⟩ := h
  have hf : 0 ≤ c.first := by
    by_contra hneg
    exact hg (Or.inl (by omega))
  have hs : 0 ≤ c.second := by
    by_contra hneg
    exact hg (Or.inr (Or.inr (by omega)))
  have hop : c.op ≠ NO_OP := fun hop => hg (Or.inr (Or.inl hop))
  cases he : evaluate c with
  | none => rw [he] at hsome; exact absurd hsome (by decide)
  | some r => exact ⟨hf, r, rfl, process_equal_key_accept c r hf hop hs he⟩

/-! ## Equals -/

/-- C1. Equals guard: when `first` is unset (negative), or `op` is the
no-operator character, or `second` is unset (negative), or `op` is `DIVIDE`
with `second = 0`, `process_equal_key` returns the record it was given, every
field unchanged, and makes no render call at all. -/
theorem process_equal_key_guard (c : CalcData)
    (h : c.first < 0 ∨ c.op = NO_OP ∨ c.second < 0 ∨ (c.op = DIVIDE ∧ c.second = 0)) :
    process_equal_key c = (c, []) := by
  unfold process_equal_key
  by_cases hg : c.first < 0 ∨ c.op = NO_OP ∨ c.second < 0
  · simp [hg]
  · have hd : c.op = DIVIDE ∧ c.second = 0 := by
      rcases h with h | h | h | h
      · exact absurd (Or.inl h) hg
      · exact absurd (Or.inr (Or.inl h)) hg
      · exact absurd (Or.inr (Or.inr h)) hg
      · exact h
    have he : evaluate c = none := by
      unfold evaluate
      rw [hd.1, if_neg (by decide), if_neg (by decide), if_neg (by decide), if_pos rfl,
        if_pos hd.2]
    rw [if_neg hg, he]

/-- Witness of C1: division of 5 by 0 is ignored. -/
theorem process_equal_key_guard_witness :
    process_equal_key ⟨5, 0, 0, DIVIDE, CalcState.READ_SECOND⟩
      = (⟨5, 0, 0, DIVIDE, CalcState.READ_SECOND⟩, []) :=
  process_equal_key_guard ⟨5, 0, 0, DIVIDE, CalcState.READ_SECOND⟩
    (Or.inr (Or.inr (Or.inr ⟨rfl, rfl⟩)))

/-- C2, as stated, fails: with `first = 2147483647`, `second = 1` and `ADD`
(the keys `2147483647`, operator, `1`), equals is accepted and the stored
`result` is `-2147483648`, not the sum `2147483648`, which no `int` holds. -/
theorem process_equal_key_add_overflow :
    (process_equal_key ⟨2147483647, 1, 0, ADD, CalcState.READ_SECOND⟩).1.result = -2147483648
    ∧ (process_equal_key ⟨2147483647, 1, 0, ADD, CalcState.READ_SECOND⟩).1.result
        ≠ (2147483647 : Int) + 1 := by
  decide

/-- C2, amended. For every record with `first` and `second` set (between 0 and
`INT_MAX`), `op` one of the four operators and not a division by zero,
`process_equal_key` stores in `result`: for `ADD` the 32-bit wrap of
`first + second`, which is `first + second` itself when that does not exceed
`INT_MAX`; for `SUBTRACT` exactly `first - second`; for `MULTIPLY` the 32-bit
wrap of `first * second`, which is `first * second` itself when that does not
exceed `INT_MAX`; for `DIVIDE` exactly the integer quotient `first / second`. -/
theorem process_equal_key_result (c : CalcData)
    (h1 : 0 ≤ c.first ∧ c.first ≤ INT_MAX) (h2 : 0 ≤ c.second ∧ c.second ≤ INT_MAX)
    (hop : IsOperator c.op) (hdiv : ¬ (c.op = DIVIDE ∧ c.second = 0)) :
    (c.op = ADD →
        (process_equal_key c).1.result = wrapInt (c.first + c.second)
        ∧ (c.first + c.second ≤ INT_MAX →
            (process_equal_key c).1.result = c.first + c.second))
    ∧ (c.op = SUBTRACT → (process_equal_key c).1.result = c.first - c.second)
    ∧ (c.op = MULTIPLY →
        (process_equal_key c).1.result = wrapInt (c.first * c.second)
        ∧ (c.first * c.second ≤ INT_MAX →
            (process_equal_key c).1.result = c.first * c.second))
    ∧ (c.op = DIVIDE → (process_equal_key c).1.result = c.first / c.second) := by
  have hne := operator_ne_no_op hop
  obtain ⟨h1lo, h1hi⟩ := h1
  obtain ⟨h2lo, h2hi⟩ := h2
  refine ⟨?_, ?_, ?_, ?_⟩
  · intro h
    have he : evaluate c = some (wrapInt (c.first + c.second)) := by
      unfold evaluate; rw [if_pos h]
    rw [process_equal_key_accept c _ h1lo hne h2lo he]
    refine ⟨rfl, fun hs => ?_⟩
    exact wrapInt_eq_self (by unfold INT_MIN; omega) hs
  · intro h
    have he : evaluate c = some (wrapInt (c.first - c.second)) := by
      unfold evaluate; rw [h, if_neg (by decide), if_pos rfl]
    rw [process_equal_key_accept c _ h1lo hne h2lo he]
    exact wrapInt_eq_self (by unfold INT_MIN; unfold INT_MAX at h2hi; omega)
      (by unfold INT_MAX at *; omega)
  · intro h
    have he : evaluate c = some (wrapInt (c.first * c.second)) := by
      unfold evaluate; rw [h, if_neg (by decide), if_neg (by decide), if_pos rfl]
    rw [process_equal_key_accept c _ h1lo hne h2lo he]
    refine ⟨rfl, fun hs => ?_⟩
    have hnn : 0 ≤ c.first * c.second := Int.mul_nonneg h1lo h2lo
    exact wrapInt_eq_self (by unfold INT_MIN; omega) hs
  · intro h
    have hz : c.second ≠ 0 := fun hz => hdiv ⟨h, hz⟩
    have he : evaluate c = some (wrapInt (Int.tdiv c.first c.second)) := by
      unfold evaluate
      rw [h, if_neg (by decide), if_neg (by decide), if_neg (by decide), if_pos rfl, if_neg hz]
    rw [process_equal_key_accept c _ h1lo hne h2lo he]
    have hq : Int.tdiv c.first c.second = c.first / c.second :=
      Int.tdiv_eq_ediv h1lo h2lo
    have hq0 : 0 ≤ c.first / c.second := Int.ediv_nonneg h1lo h2lo
    have hq1 : c.first / c.second ≤ c.first := Int.ediv_le_self _ h1lo
    show wrapInt (Int.tdiv c.first c.second) = c.first / c.second
    rw [hq]
    exact wrapInt_eq_self (by unfold INT_MIN; omega) (le_trans hq1 h1hi)

/-- Witness of C2 (amended): `17 / 5` stores the quotient 3. -/
theorem process_equal_key_result_witness :
    (process_equal_key ⟨17, 5, 0, DIVIDE, CalcState.READ_SECOND⟩).1.result = 17 / 5 :=
  (process_equal_key_result ⟨17, 5, 0, DIVIDE, CalcState.READ_SECOND⟩
    (by decide) (by decide) (by decide) (by decide)).2.2.2 rfl

/-! ## Digits -/

set_option maxRecDepth 100000 in
/-- C3, as stated, fails: the ten digits `2147483648` entered on the fresh
engine leave `first = -2147483648`, not the decimal value 2147483648 (which
exceeds `INT_MAX`). -/
theorem process_digits_overflow :
    (process_digits fresh ['2', '1', '4', '7', '4', '8', '3', '6', '4', '8']).first
        = -2147483648
    ∧ (process_digits fresh ['2', '1', '4', '7', '4', '8', '3', '6', '4', '8']).first
        ≠ decimalValue ['2', '1', '4', '7', '4', '8', '3', '6', '4', '8'] := by
  decide

/-- C3, amended. Starting from the fresh engine, for every non-empty sequence
of digit characters whose decimal value does not exceed `INT_MAX`
(2147483647), after `process_digit_key` has processed them in order `first`
is the decimal value of the sequence, `second`, `result` and `op` are as in
the fresh engine, and `state` is still `READ_FIRST`. -/
theorem process_digits_fresh (ds : List Char) (hne : ds ≠ [])
    (hds : ∀ d ∈ ds, IsDigit d) (hfit : decimalValue ds ≤ INT_MAX) :
    process_digits fresh ds
      = ⟨decimalValue ds, -1, 0, NO_OP, CalcState.READ_FIRST⟩ :=
  process_digits_fresh_eq ds hne hds hfit

/-- Witness of C3 (amended): the digits `4`, `0`, `7` give `first = 407`. -/
theorem process_digits_fresh_witness :
    process_digits fresh ['4', '0', '7'] = ⟨407, -1, 0, NO_OP, CalcState.READ_FIRST⟩ :=
  process_digits_fresh ['4', '0', '7'] (by decide) (by decide) (by decide)

/-- C4. Post-state of a successful equals: when `first` and `second` are set,
`op` is one of the four operators and the operation is not a division by
zero, `process_equal_key` evaluates (the `switch` stores a value in `result`)
and leaves `first = result`, `second` unset (`-1`), `op` the no-operator
character and `state = SHOWING_RESULT`; `process_digit_key` with a digit `d`
on that record then gives `first` the value of the single digit `d`, `second`
unset, `op` the no-operator character and `state = READ_FIRST`. -/
theorem process_equal_key_then_digit (c : CalcData) (d : Char)
    (h1 : 0 ≤ c.first) (hop : IsOperator c.op) (h2 : 0 ≤ c.second)
    (hdiv : ¬ (c.op = DIVIDE ∧ c.second = 0)) (hd : IsDigit d) :
    evaluate c = some (process_equal_key c).1.result
    ∧ (process_equal_key c).1.first = (process_equal_key c).1.result
    ∧ (process_equal_key c).1.second = -1
    ∧ (process_equal_key c).1.op = NO_OP
    ∧ (process_equal_key c).1.state = CalcState.SHOWING_RESULT
    ∧ (process_digit_key (process_equal_key c).1 d).1.first = (d.toNat : Int) - 48
    ∧ (process_digit_key (process_equal_key c).1 d).1.second = -1
    ∧ (process_digit_key (process_equal_key c).1 d).1.op = NO_OP
    ∧ (process_digit_key (process_equal_key c).1 d).1.state = CalcState.READ_FIRST := by
  obtain ⟨r, hr⟩ := evaluate_some c hop hdiv
  rw [process_equal_key_accept c r h1 (operator_ne_no_op hop) h2 hr]
  refine ⟨hr, rfl, rfl, rfl, rfl, ?_, ?_, rfl, rfl⟩
  · show add_digit (-1) d = _
    exact add_digit_unset_single hd
  · rfl

/-- Witness of C4: `6 * 7 =` then the digit `9`. -/
theorem process_equal_key_then_digit_witness :
    (process_equal_key ⟨6, 7, 0, MULTIPLY, CalcState.READ_SECOND⟩).1
        = ⟨42, -1, 42, NO_OP, CalcState.SHOWING_RESULT⟩
    ∧ (process_digit_key (process_equal_key ⟨6, 7, 0, MULTIPLY, CalcState.READ_SECOND⟩).1 '9').1.first
        = (('9'.toNat : Int) - 48) :=
  ⟨by decide,
   (process_equal_key_then_digit ⟨6, 7, 0, MULTIPLY, CalcState.READ_SECOND⟩ '9'
      (by decide) (by decide) (by decide) (by decide) (by decide)).2.2.2.2.2.1⟩

/-! ## Operator cycle -/

/-- C5 at the record left by the keys `2 O O 5 =`: the equals has set
`first = result = -3`, and `process_operator_key` on that record, whose
`first` is set, changes no field and makes no render call, where the claim
says `op` becomes `ADD`, `state` becomes `READ_SECOND` and the expression is
rendered.  On the record left by `5 O O 2 =` (`first = 3`) it does exactly
that.  The cycle itself is as the claim says: `next_operator` sends
no-operator to `ADD`, `ADD` to `SUBTRACT`, `SUBTRACT` to `MULTIPLY`,
`MULTIPLY` to `DIVIDE` and `DIVIDE` to `ADD`. -/
theorem process_operator_key_negative_first :
    Reachable (run fresh ['2', OPERATOR, OPERATOR, '5', EQUAL]).1
    ∧ (run fresh ['2', OPERATOR, OPERATOR, '5', EQUAL]).1
        = ⟨-3, -1, -3, NO_OP, CalcState.SHOWING_RESULT⟩
    ∧ process_operator_key ⟨-3, -1, -3, NO_OP, CalcState.SHOWING_RESULT⟩
        = (⟨-3, -1, -3, NO_OP, CalcState.SHOWING_RESULT⟩, [])
    ∧ (run fresh ['5', OPERATOR, OPERATOR, '2', EQUAL]).1
        = ⟨3, -1, 3, NO_OP, CalcState.SHOWING_RESULT⟩
    ∧ process_operator_key ⟨3, -1, 3, NO_OP, CalcState.SHOWING_RESULT⟩
        = (⟨3, -1, 3, ADD, CalcState.READ_SECOND⟩, [RenderCall.expression 3 ADD (-1)])
    ∧ process_operator_key fresh = (fresh, [])
    ∧ next_operator NO_OP = ADD
    ∧ next_operator ADD = SUBTRACT
    ∧ next_operator SUBTRACT = MULTIPLY
    ∧ next_operator MULTIPLY = DIVIDE
    ∧ next_operator DIVIDE = ADD :=
  ⟨run_reachable _ fresh Reachable.start, by decide, by decide, by decide, by decide,
   by decide, by decide, by decide, by decide, by decide, by decide⟩

/-- C6. Operator rotation has period 4: `next_operator` applied four times
is the identity on the four operators, and on every record with `first` set
and `op` one of the four operators, four successive `process_operator_key`
calls bring `op` back to the operator it started from. -/
theorem process_operator_key_period (c : CalcData) (h1 : 0 ≤ c.first) (hop : IsOperator c.op) :
    next_operator (next_operator (next_operator (next_operator c.op))) = c.op
    ∧ (process_operator_key (process_operator_key (process_operator_key
        (process_operator_key c).1).1).1).1.op = c.op := by
  have hn : ¬ c.first < 0 := by omega
  have h4 : next_operator (next_operator (next_operator (next_operator c.op))) = c.op := by
    rcases hop with h | h | h | h <;> rw [h] <;> decide
  refine ⟨h4, ?_⟩
  simp only [process_operator_key, hn, if_false]
  exact h4

/-- Witness of C6: four presses starting from `MULTIPLY`. -/
theorem process_operator_key_period_witness :
    (process_operator_key (process_operator_key (process_operator_key
        (process_operator_key ⟨3, -1, 0, MULTIPLY, CalcState.READ_SECOND⟩).1).1).1).1.op
      = MULTIPLY :=
  (process_operator_key_period ⟨3, -1, 0, MULTIPLY, CalcState.READ_SECOND⟩
    (by decide) (by decide)).2

/-! ## Key streams -/

set_option maxRecDepth 100000 in
/-- C7, as stated, fails: with `A = 2147483647` and `B = 1` the key stream
`A`, operator, `B`, equals ends with `result = -2147483648`, not
`value(A) + value(B) = 2147483648`. -/
theorem run_add_overflow :
    (run fresh (['2', '1', '4', '7', '4', '8', '3', '6', '4', '7'] ++ [OPERATOR] ++ ['1']
        ++ [EQUAL])).1.result = -2147483648
    ∧ (run fresh (['2', '1', '4', '7', '4', '8', '3', '6', '4', '7'] ++ [OPERATOR] ++ ['1']
        ++ [EQUAL])).1.result
      ≠ decimalValue ['2', '1', '4', '7', '4', '8', '3', '6', '4', '7'] + decimalValue ['1'] := by
  decide

/-- C7, amended. From the fresh engine, for every pair of non-empty digit
sequences `A` and `B` whose decimal values do not exceed `INT_MAX`: after
`A` and one operator press `op` is `ADD`, and, when `value(A) + value(B)`
does not exceed `INT_MAX`, the key stream `A`, operator, `B`, equals ends with
`result = value(A) + value(B)`, `first` equal to that result, `second` unset,
no operator and `state = SHOWING_RESULT`; after `A` and two operator presses
`op` is `SUBTRACT`, and the key stream `A`, operator, operator, `B`, equals
ends with `result = value(A) - value(B)`, `first` equal to that result,
`second` unset, no operator and `state = SHOWING_RESULT`. -/
theorem run_add_sub (A B : List Char) (hA : A ≠ []) (hB : B ≠ [])
    (hAd : ∀ d ∈ A, IsDigit d) (hBd : ∀ d ∈ B, IsDigit d)
    (hAfit : decimalValue A ≤ INT_MAX) (hBfit : decimalValue B ≤ INT_MAX) :
    (run fresh (A ++ [OPERATOR])).1.op = ADD
    ∧ (decimalValue A + decimalValue B ≤ INT_MAX →
        (run fresh (A ++ [OPERATOR] ++ B ++ [EQUAL])).1
          = ⟨decimalValue A + decimalValue B, -1, decimalValue A + decimalValue B, NO_OP,
             CalcState.SHOWING_RESULT⟩)
    ∧ (run fresh (A ++ [OPERATOR, OPERATOR])).1.op = SUBTRACT
    ∧ (run fresh (A ++ [OPERATOR, OPERATOR] ++ B ++ [EQUAL])).1
        = ⟨decimalValue A - decimalValue B, -1, decimalValue A - decimalValue B, NO_OP,
           CalcState.SHOWING_RESULT⟩ := by
  have hAnn := decimalValue_nonneg A hAd
  have hBnn := decimalValue_nonneg B hBd
  have hAneg : ¬ decimalValue A < 0 := by omega
  have hop1 : (process_operator_key (process_digits fresh A)).1
      = ⟨decimalValue A, -1, 0, ADD, CalcState.READ_SECOND⟩ := by
    rw [process_digits_fresh_eq A hA hAd hAfit]
    unfold process_operator_key
    rw [if_neg hAneg]
    rfl
  have hop2 : (process_operator_key (process_operator_key (process_digits fresh A)).1).1
      = ⟨decimalValue A, -1, 0, SUBTRACT, CalcState.READ_SECOND⟩ := by
    rw [hop1]
    unfold process_operator_key
    rw [if_neg hAneg]
    rfl
  refine ⟨?_, ?_, ?_, ?_⟩
  · rw [run_fst_append, run_fst_digits A hAd, run_fst_operator, hop1]
    rfl
  · intro hsum
    rw [run_expression A B hAd hBd, hop1, process_digits_second_eq B hB hBd hBfit]
    have hw : wrapInt (decimalValue A + decimalValue B) = decimalValue A + decimalValue B :=
      wrapInt_eq_self (by unfold INT_MIN; omega) hsum
    have he : evaluate ⟨decimalValue A, decimalValue B, 0, ADD, CalcState.READ_SECOND⟩
        = some (decimalValue A + decimalValue B) := by
      rw [← hw]
      rfl
    rw [process_equal_key_accept _ _ hAnn (show ADD ≠ NO_OP by decide) hBnn he]
  · rw [run_fst_append, run_fst_digits A hAd, run_fst_operator, run_fst_operator, hop2]
    rfl
  · rw [run_expression_two A B hAd hBd, hop2, process_digits_second_eq B hB hBd hBfit]
    have hw : wrapInt (decimalValue A - decimalValue B) = decimalValue A - decimalValue B :=
      wrapInt_eq_self (by unfold INT_MIN; unfold INT_MAX at hBfit; omega)
        (by unfold INT_MAX at *; omega)
    have he : evaluate ⟨decimalValue A, decimalValue B, 0, SUBTRACT, CalcState.READ_SECOND⟩
        = some (decimalValue A - decimalValue B) := by
      rw [← hw]
      rfl
    rw [process_equal_key_accept _ _ hAnn (show SUBTRACT ≠ NO_OP by decide) hBnn he]

/-- Witness of C7 (amended): the keys `1 2 O 3 =` give result 15 and first 15;
the keys `6 O O 2 =` give result 4. -/
theorem run_add_sub_witness :
    (run fresh (['1', '2'] ++ [OPERATOR] ++ ['3'] ++ [EQUAL])).1
        = ⟨15, -1, 15, NO_OP, CalcState.SHOWING_RESULT⟩
    ∧ (run fresh (['6'] ++ [OPERATOR, OPERATOR] ++ ['2'] ++ [EQUAL])).1
        = ⟨4, -1, 4, NO_OP, CalcState.SHOWING_RESULT⟩ :=
  ⟨(run_add_sub ['1', '2'] ['3'] (by decide) (by decide) (by decide) (by decide)
      (by decide) (by decide)).2.1 (by decide),
   (run_add_sub ['6'] ['2'] (by decide) (by decide) (by decide) (by decide)
      (by decide) (by decide)).2.2.2⟩

/-- C8, as stated, fails: after `7` and four operator presses `op` is
`DIVIDE`, not `ADD`, and the key stream `7 O O O O 0 =` ends with `result = 0`
in state `READ_SECOND`, not with `result = 7` in state `SHOWING_RESULT`. -/
theorem run_scenario3_not_add :
    (run fresh ['7', OPERATOR, OPERATOR, OPERATOR, OPERATOR]).1.op ≠ ADD
    ∧ (run fresh ['7', OPERATOR, OPERATOR, OPERATOR, OPERATOR, '0', EQUAL]).1.result ≠ 7
    ∧ (run fresh ['7', OPERATOR, OPERATOR, OPERATOR, OPERATOR, '0', EQUAL]).1.state
        ≠ CalcState.SHOWING_RESULT := by
  decide

/-- C8, amended. From the fresh engine, in the key stream `7 O O O O 0 =` the
four operator presses leave `op` at `DIVIDE` (no-operator, `ADD`, `SUBTRACT`,
`MULTIPLY`, `DIVIDE`), the digit `0` sets `second = 0`, and the final equals is
a division by zero and is ignored: it makes no render call and the final
record is the one before it, `first = 7`, `second = 0`, `result = 0`,
`op = DIVIDE`, `state = READ_SECOND`. -/
theorem run_scenario3 :
    (run fresh ['7', OPERATOR, OPERATOR, OPERATOR, OPERATOR]).1
        = ⟨7, -1, 0, DIVIDE, CalcState.READ_SECOND⟩
    ∧ (run fresh ['7', OPERATOR, OPERATOR, OPERATOR, OPERATOR, '0']).1
        = ⟨7, 0, 0, DIVIDE, CalcState.READ_SECOND⟩
    ∧ dispatch ⟨7, 0, 0, DIVIDE, CalcState.READ_SECOND⟩ EQUAL
        = (⟨7, 0, 0, DIVIDE, CalcState.READ_SECOND⟩, [])
    ∧ (run fresh ['7', OPERATOR, OPERATOR, OPERATOR, OPERATOR, '0', EQUAL]).1
        = ⟨7, 0, 0, DIVIDE, CalcState.READ_SECOND⟩ := by
  decide

/-- C9, as stated, fails: after `5` and three operator presses `op` is
`MULTIPLY`, not `DIVIDE`; the final equals of `5 O O O 0 =` is accepted, and
the final record has `first = 0`, no operator and state `SHOWING_RESULT`, not
`first = 5`, `op = DIVIDE` and state `READ_SECOND`. -/
theorem run_scenario4_not_divide :
    (run fresh ['5', OPERATOR, OPERATOR, OPERATOR]).1.op ≠ DIVIDE
    ∧ (run fresh ['5', OPERATOR, OPERATOR, OPERATOR, '0', EQUAL]).1
        ≠ (run fresh ['5', OPERATOR, OPERATOR, OPERATOR]).1
    ∧ (run fresh ['5', OPERATOR, OPERATOR, OPERATOR, '0', EQUAL]).1.first ≠ 5
    ∧ (run fresh ['5', OPERATOR, OPERATOR, OPERATOR, '0', EQUAL]).1.op ≠ DIVIDE
    ∧ (run fresh ['5', OPERATOR, OPERATOR, OPERATOR, '0', EQUAL]).1.state
        ≠ CalcState.READ_SECOND := by
  decide

/-- C9, amended. From the fresh engine, in the key stream `5 O O O 0 =` the
three operator presses leave `op` at `MULTIPLY`, the digit `0` sets
`second = 0`, and the final equals is accepted: it evaluates `5 * 0`, renders
the expression and the result, and ends with `result = 0`, `first = 0`,
`second` unset, no operator and `state = SHOWING_RESULT`. -/
theorem run_scenario4 :
    (run fresh ['5', OPERATOR, OPERATOR, OPERATOR]).1
        = ⟨5, -1, 0, MULTIPLY, CalcState.READ_SECOND⟩
    ∧ (run fresh ['5', OPERATOR, OPERATOR, OPERATOR, '0']).1
        = ⟨5, 0, 0, MULTIPLY, CalcState.READ_SECOND⟩
    ∧ dispatch ⟨5, 0, 0, MULTIPLY, CalcState.READ_SECOND⟩ EQUAL
        = (⟨0, -1, 0, NO_OP, CalcState.SHOWING_RESULT⟩,
           [RenderCall.expression 5 MULTIPLY 0, RenderCall.result 0])
    ∧ (run fresh ['5', OPERATOR, OPERATOR, OPERATOR, '0', EQUAL]).1
        = ⟨0, -1, 0, NO_OP, CalcState.SHOWING_RESULT⟩ := by
  decide

/-- C10 at the keys `2 O O 5 = O`: the equals is accepted and stores
`result = -3` and `first = -3`; the following operator press is then ignored
(no field changes, no render call), so `op` stays the no-operator character
and `state` stays `SHOWING_RESULT`.  After the non-negative result of
`5 O O 2 =` the same press is accepted: `op = ADD`, `state = READ_SECOND`,
`first = 3`. -/
theorem run_operator_after_negative_result :
    (run fresh ['2', OPERATOR, OPERATOR, '5', EQUAL]).1
        = ⟨-3, -1, -3, NO_OP, CalcState.SHOWING_RESULT⟩
    ∧ dispatch ⟨-3, -1, -3, NO_OP, CalcState.SHOWING_RESULT⟩ OPERATOR
        = (⟨-3, -1, -3, NO_OP, CalcState.SHOWING_RESULT⟩, [])
    ∧ (run fresh ['2', OPERATOR, OPERATOR, '5', EQUAL, OPERATOR]).1
        = ⟨-3, -1, -3, NO_OP, CalcState.SHOWING_RESULT⟩
    ∧ (run fresh ['5', OPERATOR, OPERATOR, '2', EQUAL, OPERATOR]).1
        = ⟨3, -1, 3, ADD, CalcState.READ_SECOND⟩ := by
  decide

/-! ## Properties of the reachable records -/

/-- C11. Division safety: in every record reachable from the fresh engine,
when `process_equal_key` executes its division, on the operands `a = first`
and `b = second`, the divisor is positive (so never zero) and the dividend is
not negative; the value stored in `result` is the quotient `q` of `a` by `b`,
with `0 ≤ q ≤ a` and `q * b ≤ a < (q + 1) * b`. -/
theorem division_safe (c : CalcData) (h : Reachable c) (a b : Int)
    (hd : division_operands c = some (a, b)) :
    a = c.first ∧ b = c.second ∧ 0 < b ∧ b ≠ 0 ∧ 0 ≤ a
    ∧ (process_equal_key c).1.result = Int.tdiv a b
    ∧ (process_equal_key c).1.result = a / b
    ∧ 0 ≤ (process_equal_key c).1.result
    ∧ (process_equal_key c).1.result ≤ a
    ∧ (process_equal_key c).1.result * b ≤ a
    ∧ a < ((process_equal_key c).1.result + 1) * b := by
  obtain ⟨hf, -, -, -, -, -⟩ := reachable_shape h
  unfold division_operands at hd
  split_ifs at hd with hg h1 h2 h3 h4 hz
  injection hd with hd
  injection hd with ha hb
  have hf0 : 0 ≤ c.first := by
    by_contra hneg
    exact hg (Or.inl (by omega))
  have hs0 : 0 ≤ c.second := by
    by_contra hneg
    exact hg (Or.inr (Or.inr (by omega)))
  have hop : c.op ≠ NO_OP := fun hop => hg (Or.inr (Or.inl hop))
  have hbpos : 0 < c.second := by omega
  have hq : Int.tdiv c.first c.second = c.first / c.second := Int.tdiv_eq_ediv hf0 hs0
  have hq0 : 0 ≤ c.first / c.second := Int.ediv_nonneg hf0 hs0
  have hq1 : c.first / c.second ≤ c.first := Int.ediv_le_self _ hf0
  have hw : wrapInt (c.first / c.second) = c.first / c.second :=
    wrapInt_eq_self (by unfold INT_MIN; omega) (le_trans hq1 hf.2)
  have he : evaluate c = some (c.first / c.second) := by
    unfold evaluate
    rw [if_neg h1, if_neg h2, if_neg h3, if_pos h4, if_neg hz, hq, hw]
  rw [process_equal_key_accept c _ hf0 hop hs0 he, ← ha, ← hb]
  refine ⟨rfl, rfl, hbpos, hz, hf0, hq.symm, rfl, hq0, hq1, ?_, ?_⟩
  · exact Int.ediv_mul_le _ hz
  · exact Int.lt_ediv_add_one_mul_self _ hbpos

/-- Witness of C11: after the keys `1 7 O O O O 5` the equals divides 17 by 5. -/
theorem division_safe_witness :
    (process_equal_key (run fresh ['1', '7', OPERATOR, OPERATOR, OPERATOR, OPERATOR, '5']).1).1.result
      = Int.tdiv 17 5 :=
  (division_safe (run fresh ['1', '7', OPERATOR, OPERATOR, OPERATOR, OPERATOR, '5']).1
    (run_reachable _ fresh Reachable.start) 17 5 (by decide)).2.2.2.2.2.1

/-- C12. State invariant: in every record reachable from the fresh engine, an
operator being chosen (`op` not the no-operator character) implies that
`state` is `READ_SECOND` or `SHOWING_RESULT`. -/
theorem op_set_state (c : CalcData) (h : Reachable c) (hop : c.op ≠ NO_OP) :
    c.state = CalcState.READ_SECOND ∨ c.state = CalcState.SHOWING_RESULT := by
  obtain ⟨-, -, -, h1, -, -⟩ := reachable_shape h
  cases hs : c.state with
  | READ_FIRST => exact absurd (h1 hs).1 hop
  | READ_SECOND => exact Or.inl rfl
  | SHOWING_RESULT => exact Or.inr rfl

/-- Witness of C12: after the keys `1 O` the operator is `ADD` and the state
`READ_SECOND`. -/
theorem op_set_state_witness :
    (run fresh ['1', OPERATOR]).1.state = CalcState.READ_SECOND
    ∨ (run fresh ['1', OPERATOR]).1.state = CalcState.SHOWING_RESULT :=
  op_set_state (run fresh ['1', OPERATOR]).1 (run_reachable _ fresh Reachable.start)
    (by decide)

/-- C13, as stated, fails: the record after the keys `1 O 2 =` is reachable,
has no operator, and its state is `SHOWING_RESULT`, not `READ_FIRST`. -/
theorem no_op_not_only_read_first :
    ¬ (∀ c : CalcData, Reachable c → c.op = NO_OP → c.state = CalcState.READ_FIRST) := by
  intro hall
  have hr : Reachable (run fresh ['1', OPERATOR, '2', EQUAL]).1 :=
    run_reachable _ fresh Reachable.start
  exact absurd (hall _ hr (by decide)) (by decide)

/-- C13, amended. In every record reachable from the fresh engine, no
operator being chosen (`op` the no-operator character) implies that `state`
is `READ_FIRST` or `SHOWING_RESULT`; equivalently, in `READ_SECOND` an
operator is always chosen. -/
theorem no_op_state (c : CalcData) (h : Reachable c) (hop : c.op = NO_OP) :
    c.state = CalcState.READ_FIRST ∨ c.state = CalcState.SHOWING_RESULT := by
  obtain ⟨-, -, -, -, h2, -⟩ := reachable_shape h
  cases hs : c.state with
  | READ_FIRST => exact Or.inl rfl
  | READ_SECOND => exact absurd hop (operator_ne_no_op (h2 hs).2)
  | SHOWING_RESULT => exact Or.inr rfl

/-- Witness of C13 (amended): after the keys `1 O 2 =` there is no operator
and the state is `SHOWING_RESULT`. -/
theorem no_op_state_witness :
    (run fresh ['1', OPERATOR, '2', EQUAL]).1.state = CalcState.READ_FIRST
    ∨ (run fresh ['1', OPERATOR, '2', EQUAL]).1.state = CalcState.SHOWING_RESULT :=
  no_op_state (run fresh ['1', OPERATOR, '2', EQUAL]).1
    (run_reachable _ fresh Reachable.start) (by decide)

/-- C20. Shape of the reachable records: in every record reachable from the
fresh engine, `op` is the no-operator character or one of `ADD`, `SUBTRACT`,
`MULTIPLY`, `DIVIDE`, so `process_equal_key` never takes the `default` branch
of its `switch`; the three `int` fields hold `int` values; `READ_FIRST`
implies no operator and `second` unset (`-1`); `READ_SECOND` implies `first`
set (not negative) and an operator chosen; `SHOWING_RESULT` implies no
operator, `second` unset (`-1`) and `first = result`. -/
theorem reachable_state_shape (c : CalcData) (h : Reachable c) :
    (c.op = NO_OP ∨ c.op = ADD ∨ c.op = SUBTRACT ∨ c.op = MULTIPLY ∨ c.op = DIVIDE)
    ∧ ¬ default_taken c
    ∧ InIntRange c.first ∧ InIntRange c.second ∧ InIntRange c.result
    ∧ (c.state = CalcState.READ_FIRST → c.op = NO_OP ∧ c.second = -1)
    ∧ (c.state = CalcState.READ_SECOND → 0 ≤ c.first ∧ c.op ≠ NO_OP)
    ∧ (c.state = CalcState.SHOWING_RESULT →
        c.op = NO_OP ∧ c.second = -1 ∧ c.first = c.result) := by
  obtain ⟨hf, hs, hr, h1, h2, h3⟩ := reachable_shape h
  have hop : c.op = NO_OP ∨ c.op = ADD ∨ c.op = SUBTRACT ∨ c.op = MULTIPLY ∨ c.op = DIVIDE := by
    cases hst : c.state with
    | READ_FIRST => exact Or.inl (h1 hst).1
    | READ_SECOND => exact Or.inr (h2 hst).2
    | SHOWING_RESULT => exact Or.inl (h3 hst).1
  refine ⟨hop, ?_, hf, hs, hr, h1, fun hst => ⟨(h2 hst).1, operator_ne_no_op (h2 hst).2⟩, h3⟩
  rintro ⟨hg, ha, hsub, hm, hd⟩
  rcases hop with h0 | h0 | h0 | h0 | h0
  · exact hg (Or.inr (Or.inl h0))
  · exact ha h0
  · exact hsub h0
  · exact hm h0
  · exact hd h0

/-- Witness of C20: the record after the keys `9 O 4`. -/
theorem reachable_state_shape_witness :
    0 ≤ (run fresh ['9', OPERATOR, '4']).1.first
    ∧ (run fresh ['9', OPERATOR, '4']).1.op ≠ NO_OP :=
  (reachable_state_shape (run fresh ['9', OPERATOR, '4']).1
    (run_reachable _ fresh Reachable.start)).2.2.2.2.2.2.1 (by decide)

/-! ## Properties of the keypad scanner -/

/-- C14. Debounce of a held key: starting with the latch clear, when in each
of `n ≥ 1` consecutive calls of `read_keypad` the scan finds the same row with
the same well-formed signal (`0x04`, `0x02` or `0x01`) and the re-read gives
that signal again, the first call returns the symbol of that key and every
later call returns no symbol, and the latch ends set.  Moreover, from a set
latch, as long as every call sees an active row no call returns a symbol: a
symbol can come again only after a call that saw no active row. -/
theorem read_keypad_held (row sig : Nat) (s : RowSignals) (ss : List RowSignals)
    (hrow : row < 4) (hsig : sig = 0x04 ∨ sig = 0x02 ∨ sig = 0x01)
    (hheld : ∀ x ∈ s :: ss, HeldKey row sig x) :
    (∃ k, resolve_column sig row = some k ∧ k ≠ NO_OP)
    ∧ read_keypad_seq 0 (s :: ss)
        = (resolve_column sig row :: List.replicate ss.length (some NO_OP), 1)
    ∧ (∀ (latch : Nat) (ts : List RowSignals), latch ≠ 0 →
        (∀ t ∈ ts, (scan_rows t.first 0 0xFF 4 0).1 ≠ 0) →
        read_keypad_seq latch ts = (List.replicate ts.length (some NO_OP), latch)) := by
  have hnz : sig ≠ 0 := by rcases hsig with h | h | h <;> omega
  refine ⟨resolve_column_symbol hrow hsig, ?_, fun latch ts hl hall =>
    read_keypad_seq_latched ts latch hl hall⟩
  obtain ⟨hk, hl⟩ := read_keypad_confirmed hrow (hheld s (List.mem_cons_self s ss)) hnz
  have hactive : ∀ t ∈ ss, (scan_rows t.first 0 0xFF 4 0).1 ≠ 0 := by
    intro t ht
    have hf := (hheld t (List.mem_cons_of_mem s ht)).1
    rw [(scan_rows_of_finds hrow hf hnz).1]
    exact hnz
  simp only [read_keypad_seq, hk, hl]
  rw [read_keypad_seq_latched ss 1 (by decide) hactive]

/-- Witness of C14: the key `8` (row index 1, signal `0x02`) held for three
calls is returned once. -/
theorem read_keypad_held_witness :
    read_keypad_seq 0 [one_row 1 2 2, one_row 1 2 2, one_row 1 2 2]
      = (resolve_column 2 1 :: List.replicate 2 (some NO_OP), 1) :=
  (read_keypad_held 1 2 (one_row 1 2 2) [one_row 1 2 2, one_row 1 2 2] (by decide)
    (by decide)
    (fun x hx => by
      have hx' : x = one_row 1 2 2 := by
        simp only [List.mem_cons, List.mem_singleton, or_self, List.not_mem_nil, or_false] at hx
        exact hx
      rw [hx']
      exact one_row_held 1 2)).2.1

/-- C15. Key decoding: with the latch clear, when row index `row` is the
lowest of `0..3` with a nonzero signal `sig` and the re-read gives `sig`
again, `read_keypad` sets the latch and returns `KEYBOARD_MAP[row][0]`,
`KEYBOARD_MAP[row][1]`, `KEYBOARD_MAP[row][2]` for `sig` equal to `0x04`,
`0x02`, `0x01`, and no symbol for every other nonzero `sig`; the table access
is inside the 4x3 table (the value returned is never the out-of-table
`none`), and the table has the rows `O 0 =`, `7 8 9`, `4 5 6`, `1 2 3` at
indices 0, 1, 2, 3. -/
theorem read_keypad_decode (row sig : Nat) (s : RowSignals)
    (hrow : row < 4) (hheld : HeldKey row sig s) (hsig : sig ≠ 0) :
    (read_keypad 0 s).debounce_latch = 1
    ∧ (sig = 0x04 → (read_keypad 0 s).key = keyboard_map_at row 0)
    ∧ (sig = 0x02 → (read_keypad 0 s).key = keyboard_map_at row 1)
    ∧ (sig = 0x01 → (read_keypad 0 s).key = keyboard_map_at row 2)
    ∧ (sig ≠ 0x04 → sig ≠ 0x02 → sig ≠ 0x01 → (read_keypad 0 s).key = some NO_OP)
    ∧ (∃ k, (read_keypad 0 s).key = some k)
    ∧ (∀ column, column < 3 → ∃ k, keyboard_map_at row column = some k ∧ k ≠ NO_OP)
    ∧ List.map (fun r => List.map (keyboard_map_at r) [0, 1, 2]) [0, 1, 2, 3]
        = [ [some OPERATOR, some '0', some EQUAL],
            [some '7', some '8', some '9'],
            [some '4', some '5', some '6'],
            [some '1', some '2', some '3'] ] := by
  obtain ⟨hk, hl⟩ := read_keypad_confirmed hrow hheld hsig
  have hin : ∀ column, column < 3 → ∃ k, keyboard_map_at row column = some k ∧ k ≠ NO_OP := by
    intro column hc
    interval_cases row <;> interval_cases column <;> exact ⟨_, rfl, by decide⟩
  refine ⟨hl, ?_, ?_, ?_, ?_, ?_, hin, by decide⟩
  · intro h; rw [hk, h]; rfl
  · intro h; rw [hk, h]; rfl
  · intro h; rw [hk, h]; rfl
  · intro h4 h2 h1
    rw [hk]
    unfold resolve_column
    rw [if_neg h4, if_neg h2, if_neg h1]
  · rw [hk]
    unfold resolve_column
    split_ifs
    · obtain ⟨k, hk0, -⟩ := hin 0 (by decide); exact ⟨k, hk0⟩
    · obtain ⟨k, hk1, -⟩ := hin 1 (by decide); exact ⟨k, hk1⟩
    · obtain ⟨k, hk2, -⟩ := hin 2 (by decide); exact ⟨k, hk2⟩
    · exact ⟨_, rfl⟩

/-- Witness of C15: row index 2 with signal `0x04` decodes to the key `4`. -/
theorem read_keypad_decode_witness : (read_keypad 0 (one_row 2 4 4)).key = some '4' :=
  ((read_keypad_decode 2 4 (one_row 2 4 4) (by decide) (one_row_held 2 4)
    (by decide)).2.1 rfl).trans (by decide)

/-- C16. Bounce rejection: with the latch clear, when the scan finds row index
`row` with a nonzero signal `sig` and the re-read of that row after the
15 ms delay gives another value, `read_keypad` returns no symbol and the
latch is still clear; the call ends with the delay and the re-read of that
row.  A following call whose re-read confirms its first read then sets the
latch and returns the decoded key. -/
theorem read_keypad_bounce_rejected (row sig : Nat) (s : RowSignals)
    (hrow : row < 4) (hfind : ScanFinds row sig s) (hsig : sig ≠ 0)
    (hdiff : s.again row ≠ sig) :
    (read_keypad 0 s).key = some NO_OP
    ∧ (read_keypad 0 s).debounce_latch = 0
    ∧ (read_keypad 0 s).calls
        = (scan_rows s.first 0 0xFF 4 0).2.2
          ++ [KeypadCall.HAL_Delay 15, KeypadCall.Check_Row row]
    ∧ (∀ (row2 sig2 : Nat) (s2 : RowSignals), row2 < 4 → HeldKey row2 sig2 s2 → sig2 ≠ 0 →
        (read_keypad (read_keypad 0 s).debounce_latch s2).key = resolve_column sig2 row2
        ∧ (read_keypad (read_keypad 0 s).debounce_latch s2).debounce_latch = 1) := by
  obtain ⟨hk, hl⟩ := read_keypad_bounce hrow hfind hsig hdiff
  obtain ⟨hd, hr⟩ := scan_rows_of_finds hrow hfind hsig
  refine ⟨hk, hl, ?_, ?_⟩
  · unfold read_keypad
    simp only [hd, hr, if_neg hsig, ne_eq, not_true_eq_false, if_false, if_pos hdiff]
  · intro row2 sig2 s2 hrow2 hheld2 hsig2
    rw [hl]
    exact read_keypad_confirmed hrow2 hheld2 hsig2

/-- Witness of C16: row index 3 reads `0x01` and then `0` at the re-read. -/
theorem read_keypad_bounce_rejected_witness :
    (read_keypad 0 (one_row 3 1 0)).key = some NO_OP
    ∧ (read_keypad 0 (one_row 3 1 0)).debounce_latch = 0 :=
  ⟨(read_keypad_bounce_rejected 3 1 (one_row 3 1 0) (by decide) (one_row_finds 3 1 0)
      (by decide) (by decide)).1,
   (read_keypad_bounce_rejected 3 1 (one_row 3 1 0) (by decide) (one_row_finds 3 1 0)
      (by decide) (by decide)).2.1⟩

/-- C17. Release clears the latch: when all four rows read `0`, `read_keypad`
returns no symbol and clears the latch whatever it was before; the only
hardware calls are the four `Check_Row` of the scan: no delay, no re-read. -/
theorem read_keypad_release (latch : Nat) (s : RowSignals)
    (hidle : ∀ i, i < 4 → s.first i = 0) :
    read_keypad latch s
      = ⟨some NO_OP, 0,
         [KeypadCall.Check_Row 0, KeypadCall.Check_Row 1, KeypadCall.Check_Row 2,
          KeypadCall.Check_Row 3]⟩ := by
  have h0 := hidle 0 (by decide)
  have h1 := hidle 1 (by decide)
  have h2 := hidle 2 (by decide)
  have h3 := hidle 3 (by decide)
  simp [read_keypad, scan_rows, h0, h1, h2, h3]

/-- Witness of C17: an idle keypad clears a set latch. -/
theorem read_keypad_release_witness :
    read_keypad 1 idle_rows
      = ⟨some NO_OP, 0,
         [KeypadCall.Check_Row 0, KeypadCall.Check_Row 1, KeypadCall.Check_Row 2,
          KeypadCall.Check_Row 3]⟩ :=
  read_keypad_release 1 idle_rows (fun _ _ => rfl)

/-! ## Rendering -/

/-- C18 at the digit key `5` on the fresh engine, and at the equals after
`1 2 O 3`.  The digit event makes one `print_expression` call, on
`first = 5`, no operator, `second = -1`; the call stores the text `5` in
`buf`, and the one line it writes on the display is what the array `buff`
holds, which the function never fills: for `buff` holding the empty text the
line written is empty, not `5`.  The accepted equals writes what `buff` holds
and then the result line `= 15`, which `print_result` formats and writes from
one and the same buffer. -/
theorem print_expression_writes_buff :
    (process_digit_key fresh '5').1 = ⟨5, -1, 0, NO_OP, CalcState.READ_FIRST⟩
    ∧ (process_digit_key fresh '5').2 = [RenderCall.expression 5 NO_OP (-1)]
    ∧ (∀ buff : String, (print_expression buff 5 NO_OP (-1)).1 = some "5")
    ∧ (∀ buff : Nat → String,
        written_lines (oledTrace buff (process_digit_key fresh '5').2) = [buff 0])
    ∧ written_lines (oledTrace (fun _ => "") (process_digit_key fresh '5').2) ≠ ["5"]
    ∧ (process_equal_key ⟨12, 3, 0, ADD, CalcState.READ_SECOND⟩).2
        = [RenderCall.expression 12 ADD 3, RenderCall.result 15]
    ∧ (∀ buff : String, (print_expression buff 12 ADD 3).1 = some "12 + 3")
    ∧ (∀ buff : Nat → String,
        written_lines (oledTrace buff (process_equal_key ⟨12, 3, 0, ADD, CalcState.READ_SECOND⟩).2)
          = [buff 0, "= 15"]) := by
  have hdigit : (process_digit_key fresh '5').2 = [RenderCall.expression 5 NO_OP (-1)] := by
    decide
  have hequal : (process_equal_key ⟨12, 3, 0, ADD, CalcState.READ_SECOND⟩).2
      = [RenderCall.expression 12 ADD 3, RenderCall.result 15] := by
    decide
  refine ⟨by decide, hdigit, ?_, ?_, ?_, hequal, ?_, ?_⟩
  · intro buff
    rw [print_expression_buf buff 5 (-1) NO_OP (by decide)]
    decide
  · intro buff
    rw [hdigit]
    exact written_expression buff 5 (-1) NO_OP (by decide)
  · rw [hdigit, written_expression (fun _ => "") 5 (-1) NO_OP (by decide)]
    decide
  · intro buff
    rw [print_expression_buf buff 12 3 ADD (by decide)]
    decide
  · intro buff
    rw [hequal]
    exact (written_expression_result buff 12 3 15 ADD (by decide)).trans (by
      have h15 : "= " ++ toString (15 : Int) = "= 15" := by decide
      rw [h15])

/-! ## Recovery -/

/-- C19. No unrecoverable state: from every record reachable from the fresh
engine there is a sequence of at most three keys (digits, operator, equals)
after which equals is accepted, and the equals then leaves the engine in
`SHOWING_RESULT`; and for every digit `d` there is a sequence of at most five
keys after which the engine is in `READ_FIRST` with no operator, `second`
unset and `first` the value of the single digit `d`. -/
theorem recoverable (c : CalcData) (h : Reachable c) :
    (∃ keys : List Char, keys.length ≤ 3 ∧ (∀ k ∈ keys, IsKey k)
        ∧ equal_accepted (run c keys).1
        ∧ (run c (keys ++ [EQUAL])).1.state = CalcState.SHOWING_RESULT)
    ∧ (∀ d, IsDigit d → ∃ keys : List Char, keys.length ≤ 5 ∧ (∀ k ∈ keys, IsKey k)
        ∧ (run c keys).1.state = CalcState.READ_FIRST
        ∧ (run c keys).1.op = NO_OP
        ∧ (run c keys).1.second = -1
        ∧ (run c keys).1.first = (d.toNat : Int) - 48) := by
  have hready := recovery_ready c (reachable_shape h)
  obtain ⟨hacc, r, hr⟩ := ready_equal _ hready
  obtain ⟨hlen, hkeys⟩ := recovery_keys_are_keys c
  have hshown : (run c (recovery_keys c ++ [EQUAL])).1
      = ⟨r, -1, r, NO_OP, CalcState.SHOWING_RESULT⟩ := by
    rw [run_fst_append, run_fst_equal, hr]
  refine ⟨⟨recovery_keys c, hlen, hkeys, hacc, ?_⟩, ?_⟩
  · rw [hshown]
  · intro d hd
    have hfinal : (run c ((recovery_keys c ++ [EQUAL]) ++ [d])).1
        = ⟨(d.toNat : Int) - 48, -1, r, NO_OP, CalcState.READ_FIRST⟩ := by
      rw [run_fst_append, hshown, run_fst_digits [d] (by
        intro x hx
        rw [List.mem_singleton] at hx
        rw [hx]
        exact hd)]
      show (⟨add_digit (-1) d, -1, r, NO_OP, CalcState.READ_FIRST⟩ : CalcData) = _
      rw [add_digit_unset_single hd]
    refine ⟨(recovery_keys c ++ [EQUAL]) ++ [d], ?_, ?_, ?_, ?_, ?_, ?_⟩
    · simp only [List.length_append, List.length_singleton]
      omega
    · intro k hk
      rw [List.mem_append, List.mem_append, List.mem_singleton, List.mem_singleton] at hk
      rcases hk with (hk | hk) | hk
      · exact hkeys k hk
      · exact Or.inr (Or.inr hk)
      · rw [hk]; exact Or.inl hd
    · rw [hfinal]
    · rw [hfinal]
    · rw [hfinal]
    · rw [hfinal]

/-- Witness of C19: the record after the keys `5 O O O 0` (a pending division
by zero) can be brought to an accepted equals and to a shown result. -/
theorem recoverable_witness :
    ∃ keys : List Char, keys.length ≤ 3 ∧ (∀ k ∈ keys, IsKey k)
      ∧ equal_accepted
          (run (run fresh ['5', OPERATOR, OPERATOR, OPERATOR, OPERATOR, '0']).1 keys).1
      ∧ (run (run fresh ['5', OPERATOR, OPERATOR, OPERATOR, OPERATOR, '0']).1
          (keys ++ [EQUAL])).1.state = CalcState.SHOWING_RESULT :=
  (recoverable (run fresh ['5', OPERATOR, OPERATOR, OPERATOR, OPERATOR, '0']).1
    (run_reachable _ fresh Reachable.start)).1

end Calc
